import Mathlib

/-!
Verification of the MVCAPA anomaly-detection engine
(`src/skchange/anomaly_detectors/mvcapa.py`).

Shallow embedding conventions:
* Python floats are modelled by `ℚ`.
* Numpy arrays written once per index (the DP table `opt_savings` and the
  backtrack array `opt_anomaly_starts`) are modelled as total functions
  `ℕ → ℚ` and `ℕ → Option ℕ`, updated pointwise; the NaN sentinel used by
  the source for "no anomaly ends here" is modelled by `Option.none`.
* The saving capability (`saving_func` plus its precomputed `params`) is an
  external collaborator of the engine; it is modelled as an abstract
  function `sf : ℕ → ℕ → List ℚ` mapping an interval `(start, end)` to the
  row of per-component savings, so that the matrix returned by
  `saving_func(params, starts, ends)` is `starts.map (fun s => sf s t)`.
* `scipy.stats.chi2.ppf/pdf`, `np.log` and `np.sqrt` are external library
  functions; they are taken as abstract parameters of the penalty builders.
-/

/- Core marks the arithmetic of `Rat` irreducible, which blocks `decide` on
concrete rational computations; the kernel itself checks such proofs without
any extra axioms. -/
set_option allowUnsafeReducibility true

attribute [semireducible] Rat.add Rat.sub Rat.mul Rat.div Rat.neg Rat.inv
  Rat.normalize Rat.blt

/-- Maximum of a list of rationals, mirroring `np.max` (0 on the empty list,
which the source never hits). -/
def listMax : List ℚ → ℚ
  | [] => 0
  | [x] => x
  | x :: y :: ys => max x (listMax (y :: ys))

/-- First index of the maximum of a list, mirroring `np.argmax`
(ties resolved to the earliest index; 0 on the empty list). -/
def argmaxIdx : List ℚ → ℕ
  | [] => 0
  | [_] => 0
  | x :: y :: ys => if listMax (y :: ys) ≤ x then 0 else argmaxIdx (y :: ys) + 1

theorem listMax_cons_cons (x y : ℚ) (ys : List ℚ) :
    listMax (x :: y :: ys) = max x (listMax (y :: ys)) := rfl

theorem listMax_cons (x : ℚ) (l : List ℚ) (h : l ≠ []) :
    listMax (x :: l) = max x (listMax l) := by
  cases l with
  | nil => exact absurd rfl h
  | cons y ys => rfl

theorem le_listMax_of_mem {a : ℚ} {l : List ℚ} (h : a ∈ l) : a ≤ listMax l := by
  induction l with
  | nil => cases h
  | cons x xs ih =>
    cases xs with
    | nil =>
      rcases List.mem_singleton.mp h with rfl
      exact le_refl _
    | cons y ys =>
      rw [listMax_cons _ _ (by simp)]
      rcases List.mem_cons.mp h with rfl | hmem
      · exact le_max_left _ _
      · exact le_trans (ih hmem) (le_max_right _ _)

theorem listMax_le {l : List ℚ} {b : ℚ} (h : l ≠ []) (hb : ∀ a ∈ l, a ≤ b) :
    listMax l ≤ b := by
  induction l with
  | nil => exact absurd rfl h
  | cons x xs ih =>
    cases xs with
    | nil => simpa [listMax] using hb x (by simp)
    | cons y ys =>
      rw [listMax_cons _ _ (by simp)]
      exact max_le (hb x (by simp)) (ih (by simp) fun a ha => hb a (List.mem_cons_of_mem _ ha))

theorem argmaxIdx_lt_length {l : List ℚ} (h : l ≠ []) : argmaxIdx l < l.length := by
  induction l with
  | nil => exact absurd rfl h
  | cons x xs ih =>
    cases xs with
    | nil => simp [argmaxIdx]
    | cons y ys =>
      rw [argmaxIdx]
      split
      · simp
      · simpa [Nat.succ_lt_succ_iff] using ih (by simp)

theorem getD_argmaxIdx (l : List ℚ) : l.getD (argmaxIdx l) 0 = listMax l := by
  induction l with
  | nil => rfl
  | cons x xs ih =>
    cases xs with
    | nil => rfl
    | cons y ys =>
      rw [argmaxIdx, listMax_cons_cons]
      split
      · next hle => simp [max_eq_left hle]
      · next hlt =>
        have hmax : max x (listMax (y :: ys)) = listMax (y :: ys) :=
          max_eq_right (le_of_lt (lt_of_not_le hlt))
        rw [hmax]
        simpa using ih

theorem getD_lt_of_lt_argmaxIdx {l : List ℚ} {j : ℕ} (hj : j < argmaxIdx l) :
    l.getD j 0 < listMax l := by
  induction l generalizing j with
  | nil => simp [argmaxIdx] at hj
  | cons x xs ih =>
    cases xs with
    | nil => simp [argmaxIdx] at hj
    | cons y ys =>
      rw [argmaxIdx] at hj
      split at hj
      · omega
      · next hlt =>
        have hmax : listMax (x :: y :: ys) = listMax (y :: ys) := by
          rw [listMax_cons_cons]
          exact max_eq_right (le_of_lt (lt_of_not_le hlt))
        cases j with
        | zero =>
          rw [hmax]
          simpa using lt_of_not_le hlt
        | succ j =>
          rw [hmax]
          simpa using ih (by omega)

/-- Pointwise bound between maxima of two maps over the same index list. -/
theorem listMax_map_mono {α : Type} (l : List α) (f g : α → ℚ)
    (h : ∀ a ∈ l, f a ≤ g a) : listMax (l.map f) ≤ listMax (l.map g) := by
  induction l with
  | nil => simp [listMax]
  | cons x xs ih =>
    cases xs with
    | nil => simpa [listMax] using h x (by simp)
    | cons y ys =>
      simp only [List.map_cons]
      rw [listMax_cons (f x) _ (by simp), listMax_cons (g x) _ (by simp)]
      have h1 := h x (by simp)
      have h2 : listMax ((y :: ys).map f) ≤ listMax ((y :: ys).map g) := by
        simpa using ih fun a ha => h a (List.mem_cons_of_mem _ ha)
      simp only [List.map_cons] at h2
      exact max_le_max h1 h2

/-- Cumulative sums, mirroring `np.cumsum`. -/
def cumsum : List ℚ → List ℚ
  | [] => []
  | x :: xs => x :: (cumsum xs).map (fun y => x + y)

theorem cumsum_length (l : List ℚ) : (cumsum l).length = l.length := by
  induction l with
  | nil => rfl
  | cons x xs ih => simp [cumsum, ih]

theorem cumsum_eq_map_range (l : List ℚ) :
    cumsum l = (List.range l.length).map (fun j => (l.take (j + 1)).sum) := by
  induction l with
  | nil => rfl
  | cons x xs ih =>
    rw [cumsum, ih]
    rw [List.length_cons, List.range_succ_eq_map]
    simp only [List.map_cons, List.map_map]
    refine congrArg₂ List.cons (by simp) ?_
    apply List.map_congr_left
    intro j _
    simp [Function.comp, List.take_succ_cons]

theorem cumsum_getD {l : List ℚ} {k : ℕ} (hk : k < l.length) :
    (cumsum l).getD k 0 = (l.take (k + 1)).sum := by
  rw [cumsum_eq_map_range]
  rw [List.getD_eq_getElem _ _ (by simpa [cumsum_length] using hk)]
  simp

/-- Adjacent differences, mirroring `np.diff` on a one-dimensional array. -/
def diffAdj : List ℚ → List ℚ
  | x :: y :: ys => (y - x) :: diffAdj (y :: ys)
  | _ => []

theorem diffAdj_length (l : List ℚ) : (diffAdj l).length = l.length - 1 := by
  induction l with
  | nil => rfl
  | cons x xs ih =>
    cases xs with
    | nil => rfl
    | cons y ys => simpa [diffAdj] using ih

theorem cumsum_diffAdj (x : ℚ) (l : List ℚ) :
    cumsum (diffAdj (x :: l)) = l.map (fun y => y - x) := by
  induction l generalizing x with
  | nil => rfl
  | cons y ys ih =>
    rw [diffAdj, cumsum, ih y]
    simp only [List.map_cons, List.map_map]
    refine congrArg₂ List.cons rfl ?_
    apply List.map_congr_left
    intro a _
    simp [Function.comp]

theorem getD_map {α : Type} (f : α → ℚ) {l : List α} {j : ℕ} (d : α) (hj : j < l.length) :
    (l.map f).getD j 0 = f (l.getD j d) := by
  rw [List.getD_eq_getElem _ _ (by simpa using hj), List.getD_eq_getElem _ _ hj]
  simp

theorem getD_zipWith (f : ℚ → ℚ → ℚ) {a b : List ℚ} {j : ℕ}
    (hja : j < a.length) (hjb : j < b.length) :
    (List.zipWith f a b).getD j 0 = f (a.getD j 0) (b.getD j 0) := by
  have hlen : j < (List.zipWith f a b).length := by
    simp [List.length_zipWith]; omega
  rw [List.getD_eq_getElem _ _ hlen, List.getD_eq_getElem _ _ hja,
    List.getD_eq_getElem _ _ hjb]
  simp

theorem getD_range' {lo cnt j : ℕ} (hj : j < cnt) :
    (List.range' lo cnt).getD j 0 = lo + j := by
  induction cnt generalizing lo j with
  | zero => omega
  | succ c ih =>
    cases j with
    | zero => simp [List.range']
    | succ j =>
      rw [List.range']
      simp only [List.getD_cons_succ]
      rw [ih (show j < c by omega)]
      omega

theorem zipWith_map_self (f : ℕ → ℚ → ℚ) (g : ℕ → ℚ) (l : List ℕ) :
    List.zipWith f l (l.map g) = l.map (fun s => f s (g s)) := by
  induction l with
  | nil => rfl
  | cons x xs ih => simp [ih]

theorem sum_map_le_sum_map {α : Type} (l : List α) (f g : α → ℚ)
    (h : ∀ a ∈ l, f a ≤ g a) : (l.map f).sum ≤ (l.map g).sum := by
  induction l with
  | nil => simp
  | cons x xs ih =>
    simp only [List.map_cons, List.sum_cons]
    exact add_le_add (h x (by simp)) (ih fun a ha => h a (List.mem_cons_of_mem _ ha))

theorem sum_map_mul_left (s : ℚ) (l : List ℚ) :
    (l.map (fun b => s * b)).sum = s * l.sum := by
  induction l with
  | nil => simp
  | cons x xs ih => simp [ih, mul_add]

/-- Insertion step for descending sort. -/
def insertDesc (x : ℚ) : List ℚ → List ℚ
  | [] => [x]
  | y :: ys => if y < x then x :: y :: ys else y :: insertDesc x ys

/-- Sorts a list of rationals in descending order; mirrors indexing a row by
`(-row).argsort()` in the source, which likewise yields the row sorted in
decreasing order. -/
def sortDesc : List ℚ → List ℚ
  | [] => []
  | x :: xs => insertDesc x (sortDesc xs)

theorem insertDesc_length (x : ℚ) (l : List ℚ) :
    (insertDesc x l).length = l.length + 1 := by
  induction l with
  | nil => rfl
  | cons y ys ih =>
    rw [insertDesc]
    split <;> simp [ih]

theorem sortDesc_length (l : List ℚ) : (sortDesc l).length = l.length := by
  induction l with
  | nil => rfl
  | cons x xs ih => simp [sortDesc, insertDesc_length, ih]

/-- Penalized saving of one row of per-component savings, mirroring the body
of `penalise_savings` for a single row (the branch on `betas` is the same for
every row, so the matrix version is the row-wise map of this function).
In the general branch, `saving_i[(-saving_i).argsort()]` is the row sorted in
decreasing order, i.e. `sortDesc row`. -/
def penalise_saving_row (alpha : ℚ) (betas : List ℚ) (row : List ℚ) : ℚ :=
  if betas.all (fun b => b == betas.headD 0) then
    (row.map (fun x => max (x - betas.headD 0) 0 - alpha)).sum
  else
    let penalised_saving :=
      (cumsum (List.zipWith (fun a b => a - b) (sortDesc row) betas)).map
        (fun v => v - alpha)
    penalised_saving.getD (argmaxIdx penalised_saving) 0

/-- The first branch of the source of `penalise_savings`
(`if np.all(betas < 1e-8): penalised_savings = savings.sum(axis=1) - alpha`):
the full row sum minus a single alpha. Its guard is
`betas.all (fun b => decide (b < 1 / 100000000))`. This value is always dead
in the source: the second `if` of the source is not an `elif`, so the
following if/else unconditionally reassigns `penalised_savings`. -/
def penalise_savings_all_small_branch (savings : List (List ℚ)) (alpha : ℚ) :
    List ℚ :=
  savings.map (fun row => row.sum - alpha)

/-- `penalise_savings` from the source. The first (dead) branch of the source
is `penalise_savings_all_small_branch`; because it is unconditionally
overwritten, the returned value is decided by the second if/else alone. -/
def penalise_savings (savings : List (List ℚ)) (alpha : ℚ) (betas : List ℚ) :
    List ℚ :=
  if betas.all (fun b => b == betas.headD 0) then
    savings.map (fun row => (row.map (fun x => max (x - betas.headD 0) 0 - alpha)).sum)
  else
    savings.map (fun row =>
      let penalised_saving :=
        (cumsum (List.zipWith (fun a b => a - b) (sortDesc row) betas)).map
          (fun v => v - alpha)
      penalised_saving.getD (argmaxIdx penalised_saving) 0)

theorem penalise_savings_eq_map (savings : List (List ℚ)) (alpha : ℚ)
    (betas : List ℚ) :
    penalise_savings savings alpha betas =
      savings.map (penalise_saving_row alpha betas) := by
  unfold penalise_savings penalise_saving_row
  by_cases h : (betas.all fun b => b == betas.headD 0) = true
  · rw [if_pos h]
    apply List.map_congr_left
    intro row _
    rw [if_pos h]
  · rw [if_neg h]
    apply List.map_congr_left
    intro row _
    rw [if_neg h]

theorem cumsum_zipWith_sub (s b : List ℚ) :
    cumsum (List.zipWith (fun x y => x - y) s b) =
      (List.range (min s.length b.length)).map
        (fun j => (s.take (j + 1)).sum - (b.take (j + 1)).sum) := by
  induction s generalizing b with
  | nil => simp [cumsum]
  | cons x xs ih =>
    cases b with
    | nil => simp [cumsum]
    | cons y ys =>
      rw [List.zipWith_cons_cons, cumsum, ih ys]
      have hmin : min (x :: xs).length (y :: ys).length =
          min xs.length ys.length + 1 := by
        simp [Nat.succ_min_succ]
      rw [hmin, List.range_succ_eq_map]
      simp only [List.map_cons, List.map_map]
      refine congrArg₂ List.cons (by simp) ?_
      apply List.map_congr_left
      intro j _
      simp [Function.comp, List.take_succ_cons]
      ring

theorem listMax_map_sub_const {α : Type} (l : List α) (f : α → ℚ) (c : ℚ)
    (h : l ≠ []) :
    listMax (l.map (fun a => f a - c)) = listMax (l.map f) - c := by
  induction l with
  | nil => exact absurd rfl h
  | cons x xs ih =>
    cases xs with
    | nil => simp [listMax]
    | cons y ys =>
      simp only [List.map_cons]
      rw [listMax_cons_cons, listMax_cons_cons]
      have := ih (by simp)
      simp only [List.map_cons] at this
      rw [this, max_sub_sub_right]

theorem all_eq_head_false_ne_nil {betas : List ℚ}
    (h : ¬ betas.all (fun b => b == betas.headD 0) = true) : betas ≠ [] := by
  intro hnil
  subst hnil
  simp at h

/-- In the general branch (betas not all equal), the per-row penalized saving
is the maximum over subset sizes k = j+1 of the cumulative sum of the k
largest savings minus the cumulative sum of the first k betas, minus alpha. -/
theorem penalise_row_else (alpha : ℚ) (betas row : List ℚ)
    (h : ¬ betas.all (fun b => b == betas.headD 0) = true)
    (hrow : row ≠ []) :
    penalise_saving_row alpha betas row =
      listMax ((List.range (min row.length betas.length)).map
        (fun j => ((sortDesc row).take (j + 1)).sum - (betas.take (j + 1)).sum))
        - alpha := by
  rw [penalise_saving_row, if_neg h]
  have hlen : min (sortDesc row).length betas.length = min row.length betas.length := by
    rw [sortDesc_length]
  rw [cumsum_zipWith_sub, hlen]
  have hmin : ¬ min row.length betas.length = 0 := by
    have hb := all_eq_head_false_ne_nil h
    have h1 : row.length ≠ 0 := fun hc => hrow (List.length_eq_zero.mp hc)
    have h2 : betas.length ≠ 0 := fun hc => hb (List.length_eq_zero.mp hc)
    omega
  rw [List.map_map]
  have hne : (List.range (min row.length betas.length)) ≠ [] := by
    simpa [List.range_eq_nil] using hmin
  rw [getD_argmaxIdx]
  have := listMax_map_sub_const (List.range (min row.length betas.length))
    (fun j => ((sortDesc row).take (j + 1)).sum - (betas.take (j + 1)).sum)
    alpha hne
  simpa [Function.comp] using this

theorem headD_map_mul (s : ℚ) (l : List ℚ) :
    (l.map (fun b => s * b)).headD 0 = s * l.headD 0 := by
  cases l <;> simp

theorem all_eq_head_map_mul {s : ℚ} (hs : s ≠ 0) (l : List ℚ) :
    ((l.map (fun b => s * b)).all
        (fun b => b == (l.map (fun b => s * b)).headD 0)) =
      (l.all (fun b => b == l.headD 0)) := by
  rw [headD_map_mul, List.all_map]
  cases hall : l.all (fun b => b == l.headD 0) with
  | true =>
    rw [List.all_eq_true] at hall ⊢
    intro x hx
    have := hall x hx
    simp only [Function.comp, beq_iff_eq] at *
    rw [this]
  | false =>
    rw [List.all_eq_false] at hall ⊢
    obtain ⟨x, hx, hne⟩ := hall
    refine ⟨x, hx, ?_⟩
    simp only [Function.comp, beq_iff_eq] at *
    exact fun hc => hne (mul_left_cancel₀ hs hc)

theorem take_sum_nonneg {l : List ℚ} (h : ∀ b ∈ l, 0 ≤ b) (k : ℕ) :
    0 ≤ (l.take k).sum :=
  List.sum_nonneg fun b hb => h b (List.mem_of_mem_take hb)

/-- Scaling both penalty components up by a larger positive factor can only
decrease the penalized saving of any row. -/
theorem penalise_row_mono (row : List ℚ) (alpha : ℚ) (betas : List ℚ)
    (s1 s2 : ℚ) (ha : 0 ≤ alpha) (hb : ∀ b ∈ betas, 0 ≤ b)
    (h0 : 0 < s1) (h12 : s1 ≤ s2) :
    penalise_saving_row (s2 * alpha) (betas.map (fun b => s2 * b)) row ≤
      penalise_saving_row (s1 * alpha) (betas.map (fun b => s1 * b)) row := by
  have hs1 : s1 ≠ 0 := ne_of_gt h0
  have hs2 : s2 ≠ 0 := ne_of_gt (lt_of_lt_of_le h0 h12)
  have halpha : s1 * alpha ≤ s2 * alpha := mul_le_mul_of_nonneg_right h12 ha
  by_cases hcond : (betas.all fun b => b == betas.headD 0) = true
  · have hc1 : ((betas.map (fun b => s1 * b)).all
        (fun b => b == (betas.map (fun b => s1 * b)).headD 0)) = true := by
      rw [all_eq_head_map_mul hs1]; exact hcond
    have hc2 : ((betas.map (fun b => s2 * b)).all
        (fun b => b == (betas.map (fun b => s2 * b)).headD 0)) = true := by
      rw [all_eq_head_map_mul hs2]; exact hcond
    rw [penalise_saving_row, penalise_saving_row, if_pos hc2, if_pos hc1]
    rw [headD_map_mul, headD_map_mul]
    apply sum_map_le_sum_map
    intro x _
    have hb0 : 0 ≤ betas.headD 0 := by
      cases betas with
      | nil => simp
      | cons b bs => exact hb b (by simp)
    have : s1 * betas.headD 0 ≤ s2 * betas.headD 0 :=
      mul_le_mul_of_nonneg_right h12 hb0
    have hmx : max (x - s2 * betas.headD 0) 0 ≤ max (x - s1 * betas.headD 0) 0 :=
      max_le_max (by linarith) le_rfl
    linarith
  · have hc1 : ¬ ((betas.map (fun b => s1 * b)).all
        (fun b => b == (betas.map (fun b => s1 * b)).headD 0)) = true := by
      rw [all_eq_head_map_mul hs1]; exact hcond
    have hc2 : ¬ ((betas.map (fun b => s2 * b)).all
        (fun b => b == (betas.map (fun b => s2 * b)).headD 0)) = true := by
      rw [all_eq_head_map_mul hs2]; exact hcond
    by_cases hrow : row = []
    · subst hrow
      rw [penalise_saving_row, penalise_saving_row, if_neg hc2, if_neg hc1]
      simp [sortDesc, cumsum, argmaxIdx]
    · rw [penalise_row_else _ _ _ hc2 hrow, penalise_row_else _ _ _ hc1 hrow]
      simp only [List.length_map]
      have hmono := listMax_map_mono (List.range (min row.length betas.length))
        (fun j => ((sortDesc row).take (j + 1)).sum -
          ((betas.map (fun b => s2 * b)).take (j + 1)).sum)
        (fun j => ((sortDesc row).take (j + 1)).sum -
          ((betas.map (fun b => s1 * b)).take (j + 1)).sum)
        ?_
      · linarith
      · intro j _
        dsimp only
        rw [← List.map_take, ← List.map_take, sum_map_mul_left, sum_map_mul_left]
        have hT : 0 ≤ (betas.take (j + 1)).sum := take_sum_nonneg hb (j + 1)
        nlinarith

/-- `optimise_savings` from the source: penalizes the saving matrix of the
candidate starts, adds the optimal savings at each candidate start, and
returns the best value together with the best start
(`starts[0] + argmax`, i.e. the first maximizing start). -/
def optimise_savings (starts : List ℕ) (opt_savings : ℕ → ℚ)
    (next_savings : List (List ℚ)) (alpha : ℚ) (betas : List ℚ) : ℚ × ℕ :=
  let penalised_saving := penalise_savings next_savings alpha betas
  let candidate_savings :=
    List.zipWith (fun s v => opt_savings s + v) starts penalised_saving
  let amax := argmaxIdx candidate_savings
  (candidate_savings.getD amax 0, starts.headD 0 + amax)

/-- State of the DP of `run_base_capa`: the table `opt_savings` (array of
length n+1 in the source, all zeros initially) and the backtrack array
`opt_anomaly_starts` (length n, all NaN initially, modelled as `none`). -/
structure CapaState where
  opt : ℕ → ℚ
  origin : ℕ → Option ℕ

/-- Pointwise array write. -/
def updateFn {α : Type} (f : ℕ → α) (i : ℕ) (v : α) : ℕ → α :=
  fun j => if j = i then v else f j

theorem updateFn_same {α : Type} (f : ℕ → α) (i : ℕ) (v : α) :
    updateFn f i v i = v := by simp [updateFn]

theorem updateFn_ne {α : Type} (f : ℕ → α) {i j : ℕ} (v : α) (h : j ≠ i) :
    updateFn f i v j = f j := by simp [updateFn, h]

def capaInit : CapaState := ⟨fun _ => 0, fun _ => none⟩

/-- The candidate-start window of the DP at time `t`:
`starts = np.arange(lower_start, upper_start)` with
`lower_start = max(0, t - max_segment_length + 1)` (here by truncated
subtraction) and `upper_start = t - min_segment_length + 2`. -/
def capaWindow (minL maxL t : ℕ) : List ℕ :=
  List.range' (t + 1 - maxL) (t + 2 - minL - (t + 1 - maxL))

section CapaDP

variable (sf : ℕ → ℕ → List ℚ) (ca : ℚ) (cb : List ℚ) (pa : ℚ) (pb : List ℚ)
variable (minL maxL : ℕ)

/-- One iteration of the DP loop in `run_base_capa` at time `t`
(`sf` is the saving function, `ca`/`cb` the collective penalty,
`pa`/`pb` the point penalty, `minL`/`maxL` the segment length bounds).
Mirrors the body of the `for t in ts` loop: the candidate-start window
`capaWindow`, the two `optimise_savings` calls, `argmax` over
`[opt_savings[t], opt_collective_saving, opt_point_saving]`, the write of
`opt_savings[t+1]` and the conditional write of `opt_anomaly_starts[t]`. -/
def capaStep (t : ℕ) (st : CapaState) : CapaState :=
  let starts := capaWindow minL maxL t
  let collective_savings := starts.map (fun s => sf s t)
  let res := optimise_savings starts st.opt collective_savings ca cb
  let point_savings := [sf t t]
  let resPoint := optimise_savings [t] st.opt point_savings pa pb
  let savings := [st.opt t, res.1, resPoint.1]
  let amax := argmaxIdx savings
  { opt := updateFn st.opt (t + 1) (savings.getD amax 0)
    origin :=
      if amax = 1 then updateFn st.origin t (some res.2)
      else if amax = 2 then updateFn st.origin t (some t)
      else st.origin }

/-- The DP loop of `run_base_capa` after `m` iterations, i.e. after
processing t = minL - 1, ..., minL - 2 + m. -/
def capaLoop : ℕ → CapaState
  | 0 => capaInit
  | m + 1 => capaStep sf ca cb pa pb minL maxL (minL - 1 + m) (capaLoop m)

end CapaDP

/-- The backward walk of `get_anomalies`, at cursor position `i = k - 1`
(`k = 0` encodes a cursor that has left the array). An entry pointing to
`s < i` emits a collective anomaly `(s, i)` and jumps the cursor to `s - 1`;
an entry pointing to `i` itself emits a point anomaly `(i, i)`; a `none`
(NaN) entry just moves left. Appending during the right-to-left walk makes
both result lists descending in position. `fuel` bounds the number of
remaining iterations (the cursor strictly decreases at every step of the
source loop, so `fuel = k` always suffices); it makes the recursion
structural. -/
def getAnomFuel (origin : ℕ → Option ℕ) :
    ℕ → ℕ → List (ℕ × ℕ) × List (ℕ × ℕ)
  | _, 0 => ([], [])
  | 0, _ + 1 => ([], [])
  | fuel + 1, k + 1 =>
    match origin k with
    | none => getAnomFuel origin fuel k
    | some s =>
      if s < k then
        ((s, k) :: (getAnomFuel origin fuel s).1, (getAnomFuel origin fuel s).2)
      else if s = k then
        ((getAnomFuel origin fuel k).1, (k, k) :: (getAnomFuel origin fuel k).2)
      else getAnomFuel origin fuel k

/-- The backward walk of `get_anomalies` started at cursor `k - 1`, with
sufficient fuel. -/
def getAnomAux (origin : ℕ → Option ℕ) (k : ℕ) :
    List (ℕ × ℕ) × List (ℕ × ℕ) :=
  getAnomFuel origin k k

/-- `get_anomalies` from the source, on a backtrack array of length `n`. -/
def get_anomalies (origin : ℕ → Option ℕ) (n : ℕ) :
    List (ℕ × ℕ) × List (ℕ × ℕ) :=
  getAnomAux origin n

/-- Insertion of an index into an index list ordered by decreasing row
value. -/
def insertIdxDesc (row : List ℚ) (i : ℕ) : List ℕ → List ℕ
  | [] => [i]
  | j :: js =>
    if row.getD j 0 < row.getD i 0 then i :: j :: js else j :: insertIdxDesc row i js

/-- Mirrors `(-row).argsort()`: the component indices of the row, ordered by
decreasing saving value. -/
def argsortDesc (row : List ℚ) : List ℕ :=
  (List.range row.length).foldr (fun i acc => insertIdxDesc row i acc) []

/-- `find_affected_components` from the source: for each anomaly re-invokes
the saving function on exactly that interval and reports the component
indices of the top `argmax + 1` savings. -/
def find_affected_components (sf : ℕ → ℕ → List ℚ) (anomalies : List (ℕ × ℕ))
    (alpha : ℚ) (betas : List ℚ) : List (ℕ × ℕ × List ℕ) :=
  anomalies.map (fun a =>
    let saving := sf a.1 a.2
    let saving_order := argsortDesc saving
    let sorted := saving_order.map (fun j => saving.getD j 0)
    let penalised_saving :=
      (cumsum (List.zipWith (fun x y => x - y) sorted betas)).map (fun v => v - alpha)
    (a.1, a.2, saving_order.take (argmaxIdx penalised_saving + 1)))

/-- `run_base_capa` from the source: runs the DP loop over
t = min_segment_length - 1, ..., n - 1, then reconstructs the anomalies from
the backtrack array; returns `opt_savings[1:]` and the two anomaly lists. -/
def run_base_capa (sf : ℕ → ℕ → List ℚ) (ca : ℚ) (cb : List ℚ) (pa : ℚ)
    (pb : List ℚ) (minL maxL n : ℕ) :
    List ℚ × List (ℕ × ℕ) × List (ℕ × ℕ) :=
  let st := capaLoop sf ca cb pa pb minL maxL (n - (minL - 1))
  let anoms := get_anomalies st.origin n
  ((List.range n).map (fun i => st.opt (i + 1)), anoms.1, anoms.2)

/-- `run_mvcapa` from the source: `run_base_capa` followed by
`find_affected_components` on both anomaly lists (the saving initializer and
its `params` are absorbed into `sf`). -/
def run_mvcapa (sf : ℕ → ℕ → List ℚ) (ca : ℚ) (cb : List ℚ) (pa : ℚ)
    (pb : List ℚ) (minL maxL n : ℕ) :
    List ℚ × List (ℕ × ℕ × List ℕ) × List (ℕ × ℕ × List ℕ) :=
  let r := run_base_capa sf ca cb pa pb minL maxL n
  (r.1, find_affected_components sf r.2.1 ca cb,
    find_affected_components sf r.2.2 pa pb)

/-- The final DP state of `run_base_capa` on an input of length `n`. -/
def capaFinal (sf : ℕ → ℕ → List ℚ) (ca : ℚ) (cb : List ℚ) (pa : ℚ)
    (pb : List ℚ) (minL maxL n : ℕ) : CapaState :=
  capaLoop sf ca cb pa pb minL maxL (n - (minL - 1))

section CapaLemmas

variable (sf : ℕ → ℕ → List ℚ) (ca : ℚ) (cb : List ℚ) (pa : ℚ) (pb : List ℚ)
variable (minL maxL : ℕ)

theorem capaStep_opt_ne (t : ℕ) (st : CapaState) {j : ℕ} (hj : j ≠ t + 1) :
    (capaStep sf ca cb pa pb minL maxL t st).opt j = st.opt j := by
  simp only [capaStep]
  exact updateFn_ne _ _ hj

theorem capaStep_origin_ne (t : ℕ) (st : CapaState) {j : ℕ} (hj : j ≠ t) :
    (capaStep sf ca cb pa pb minL maxL t st).origin j = st.origin j := by
  simp only [capaStep]
  split
  · exact updateFn_ne _ _ hj
  · split
    · exact updateFn_ne _ _ hj
    · rfl

theorem capaLoop_opt_stable (m k : ℕ) {j : ℕ} (hj : j < minL + m) :
    (capaLoop sf ca cb pa pb minL maxL (m + k)).opt j =
      (capaLoop sf ca cb pa pb minL maxL m).opt j := by
  induction k with
  | zero => rfl
  | succ k ih =>
    rw [show m + (k + 1) = (m + k) + 1 by omega, capaLoop]
    rw [capaStep_opt_ne sf ca cb pa pb minL maxL _ _ (by omega)]
    exact ih

theorem capaLoop_origin_stable (m k : ℕ) {j : ℕ} (hj : j < minL - 1 + m) :
    (capaLoop sf ca cb pa pb minL maxL (m + k)).origin j =
      (capaLoop sf ca cb pa pb minL maxL m).origin j := by
  induction k with
  | zero => rfl
  | succ k ih =>
    rw [show m + (k + 1) = (m + k) + 1 by omega, capaLoop]
    rw [capaStep_origin_ne sf ca cb pa pb minL maxL _ _ (by omega)]
    exact ih

theorem capaLoop_origin_none (m : ℕ) {j : ℕ} (hj : minL - 1 + m ≤ j) :
    (capaLoop sf ca cb pa pb minL maxL m).origin j = none := by
  induction m with
  | zero => rfl
  | succ m ih =>
    rw [capaLoop]
    rw [capaStep_origin_ne sf ca cb pa pb minL maxL _ _ (by omega)]
    exact ih (by omega)

theorem capaLoop_opt_zero (m : ℕ) (h1 : 1 ≤ minL) {j : ℕ}
    (hj : j < minL ∨ minL + m ≤ j) :
    (capaLoop sf ca cb pa pb minL maxL m).opt j = 0 := by
  induction m with
  | zero => rfl
  | succ m ih =>
    rw [capaLoop]
    rw [capaStep_opt_ne sf ca cb pa pb minL maxL _ _ (by omega)]
    exact ih (by omega)

end CapaLemmas

theorem headD_range' {lo cnt : ℕ} (h : 0 < cnt) :
    (List.range' lo cnt).headD 0 = lo := by
  cases cnt with
  | zero => omega
  | succ c => rfl

theorem optimise_savings_val (starts : List ℕ) (opt : ℕ → ℚ) (r : ℕ → List ℚ)
    (alpha : ℚ) (betas : List ℚ) :
    (optimise_savings starts opt (starts.map r) alpha betas).1 =
      listMax (starts.map
        (fun s => opt s + penalise_saving_row alpha betas (r s))) := by
  unfold optimise_savings
  dsimp only
  rw [penalise_savings_eq_map, List.map_map, zipWith_map_self]
  exact getD_argmaxIdx _

theorem optimise_savings_point (t : ℕ) (opt : ℕ → ℚ) (row : List ℚ)
    (alpha : ℚ) (betas : List ℚ) :
    (optimise_savings [t] opt [row] alpha betas).1 =
      opt t + penalise_saving_row alpha betas row := by
  unfold optimise_savings
  rw [penalise_savings_eq_map]
  rfl

theorem optimise_savings_snd_spec (lo cnt : ℕ) (hcnt : 0 < cnt) (opt : ℕ → ℚ)
    (r : ℕ → List ℚ) (alpha : ℚ) (betas : List ℚ) :
    (optimise_savings (List.range' lo cnt) opt ((List.range' lo cnt).map r)
        alpha betas).2 ∈ List.range' lo cnt ∧
    (fun s => opt s + penalise_saving_row alpha betas (r s))
        ((optimise_savings (List.range' lo cnt) opt ((List.range' lo cnt).map r)
          alpha betas).2) =
      listMax ((List.range' lo cnt).map
        (fun s => opt s + penalise_saving_row alpha betas (r s))) ∧
    ∀ q ∈ List.range' lo cnt,
      q < (optimise_savings (List.range' lo cnt) opt
          ((List.range' lo cnt).map r) alpha betas).2 →
        (fun s => opt s + penalise_saving_row alpha betas (r s)) q <
          listMax ((List.range' lo cnt).map
            (fun s => opt s + penalise_saving_row alpha betas (r s))) := by
  set f : ℕ → ℚ := fun s => opt s + penalise_saving_row alpha betas (r s) with hf
  have hsnd : (optimise_savings (List.range' lo cnt) opt
      ((List.range' lo cnt).map r) alpha betas).2 =
      lo + argmaxIdx ((List.range' lo cnt).map f) := by
    unfold optimise_savings
    dsimp only
    rw [penalise_savings_eq_map, List.map_map, zipWith_map_self,
      headD_range' hcnt]
    rfl
  have hlen : ((List.range' lo cnt).map f).length = cnt := by
    rw [List.length_map, List.length_range']
  have hne : ((List.range' lo cnt).map f) ≠ [] := by
    intro hnil
    rw [hnil] at hlen
    simp at hlen
    omega
  have hamax : argmaxIdx ((List.range' lo cnt).map f) < cnt := by
    have := argmaxIdx_lt_length hne
    omega
  refine ⟨?_, ?_, ?_⟩
  · rw [hsnd, List.mem_range'_1]
    omega
  · rw [hsnd]
    have h2 : ((List.range' lo cnt).map f).getD
        (argmaxIdx ((List.range' lo cnt).map f)) 0 =
        f ((List.range' lo cnt).getD (argmaxIdx ((List.range' lo cnt).map f)) 0) :=
      getD_map f 0 (by rw [List.length_range']; exact hamax)
    rw [getD_range' hamax] at h2
    rw [← h2, getD_argmaxIdx]
  · intro q hq hlt
    rw [hsnd] at hlt
    rw [List.mem_range'_1] at hq
    have hjlt : q - lo < argmaxIdx ((List.range' lo cnt).map f) := by omega
    have h4 : ((List.range' lo cnt).map f).getD (q - lo) 0 =
        f ((List.range' lo cnt).getD (q - lo) 0) :=
      getD_map f 0 (by rw [List.length_range']; omega)
    rw [getD_range' (show q - lo < cnt by omega)] at h4
    have h6 : lo + (q - lo) = q := by omega
    rw [h6] at h4
    have := getD_lt_of_lt_argmaxIdx hjlt
    rw [h4] at this
    exact this

theorem listMax_pair (b c : ℚ) : listMax [b, c] = max b c := rfl

theorem listMax_three (a b c : ℚ) : listMax [a, b, c] = max a (max b c) := rfl

theorem argmaxIdx_three_0 {a b c : ℚ} (h : max b c ≤ a) :
    argmaxIdx [a, b, c] = 0 := by
  have e1 : listMax [b, c] ≤ a := by rw [listMax_pair]; exact h
  simp [argmaxIdx, e1]

theorem argmaxIdx_three_1 {a b c : ℚ} (h1 : ¬ max b c ≤ a) (h2 : c ≤ b) :
    argmaxIdx [a, b, c] = 1 := by
  have e1 : ¬ listMax [b, c] ≤ a := by rw [listMax_pair]; exact h1
  have e2 : listMax [c] ≤ b := h2
  simp [argmaxIdx, e1, e2]

theorem argmaxIdx_three_2 {a b c : ℚ} (h1 : ¬ max b c ≤ a) (h2 : ¬ c ≤ b) :
    argmaxIdx [a, b, c] = 2 := by
  have e1 : ¬ listMax [b, c] ≤ a := by rw [listMax_pair]; exact h1
  have e2 : ¬ listMax [c] ≤ b := h2
  simp [argmaxIdx, e1, e2]

section CapaStepSpec

variable (sf : ℕ → ℕ → List ℚ) (ca : ℚ) (cb : List ℚ) (pa : ℚ) (pb : List ℚ)
variable (minL maxL : ℕ)

theorem capaWindow_len_pos (t : ℕ) (h2 : 2 ≤ minL) (hlm : minL ≤ maxL)
    (ht1 : minL - 1 ≤ t) : 0 < t + 2 - minL - (t + 1 - maxL) := by
  omega

theorem capaStep_opt_val (t : ℕ) (st : CapaState) :
    (capaStep sf ca cb pa pb minL maxL t st).opt (t + 1) =
      max (st.opt t)
        (max (listMax ((capaWindow minL maxL t).map
            (fun s => st.opt s + penalise_saving_row ca cb (sf s t))))
          (st.opt t + penalise_saving_row pa pb (sf t t))) := by
  have hres1 := optimise_savings_val (capaWindow minL maxL t) st.opt
    (fun s => sf s t) ca cb
  have hpt := optimise_savings_point t st.opt (sf t t) pa pb
  simp only [capaStep]
  rw [updateFn_same, hres1, hpt, getD_argmaxIdx, listMax_three]

theorem capaStep_origin_case0 (t : ℕ) (st : CapaState)
    (h : max (listMax ((capaWindow minL maxL t).map
          (fun s => st.opt s + penalise_saving_row ca cb (sf s t))))
        (st.opt t + penalise_saving_row pa pb (sf t t)) ≤ st.opt t) :
    (capaStep sf ca cb pa pb minL maxL t st).origin t = st.origin t := by
  have hres1 := optimise_savings_val (capaWindow minL maxL t) st.opt
    (fun s => sf s t) ca cb
  have hpt := optimise_savings_point t st.opt (sf t t) pa pb
  simp only [capaStep]
  rw [hres1, hpt]
  rw [argmaxIdx_three_0 h]
  simp

theorem capaStep_origin_case1 (t : ℕ) (st : CapaState)
    (h2 : 2 ≤ minL) (hlm : minL ≤ maxL) (ht1 : minL - 1 ≤ t)
    (h1 : ¬ max (listMax ((capaWindow minL maxL t).map
          (fun s => st.opt s + penalise_saving_row ca cb (sf s t))))
        (st.opt t + penalise_saving_row pa pb (sf t t)) ≤ st.opt t)
    (hcp : st.opt t + penalise_saving_row pa pb (sf t t) ≤
        listMax ((capaWindow minL maxL t).map
          (fun s => st.opt s + penalise_saving_row ca cb (sf s t)))) :
    ∃ s, (capaStep sf ca cb pa pb minL maxL t st).origin t = some s ∧
      s ∈ capaWindow minL maxL t ∧
      st.opt s + penalise_saving_row ca cb (sf s t) =
        listMax ((capaWindow minL maxL t).map
          (fun s => st.opt s + penalise_saving_row ca cb (sf s t))) ∧
      ∀ q ∈ capaWindow minL maxL t, q < s →
        st.opt q + penalise_saving_row ca cb (sf q t) <
          listMax ((capaWindow minL maxL t).map
            (fun s => st.opt s + penalise_saving_row ca cb (sf s t))) := by
  have hres1 := optimise_savings_val (capaWindow minL maxL t) st.opt
    (fun s => sf s t) ca cb
  have hpt := optimise_savings_point t st.opt (sf t t) pa pb
  have hcnt := capaWindow_len_pos minL maxL t h2 hlm ht1
  obtain ⟨hmem, hval, hleast⟩ := optimise_savings_snd_spec (t + 1 - maxL)
    (t + 2 - minL - (t + 1 - maxL)) hcnt st.opt (fun s => sf s t) ca cb
  refine ⟨(optimise_savings (capaWindow minL maxL t) st.opt
      ((capaWindow minL maxL t).map (fun s => sf s t)) ca cb).2, ?_, hmem, hval, hleast⟩
  simp only [capaStep]
  rw [hres1, hpt]
  rw [argmaxIdx_three_1 h1 hcp]
  simp [updateFn_same]

theorem capaStep_origin_case2 (t : ℕ) (st : CapaState)
    (h1 : ¬ max (listMax ((capaWindow minL maxL t).map
          (fun s => st.opt s + penalise_saving_row ca cb (sf s t))))
        (st.opt t + penalise_saving_row pa pb (sf t t)) ≤ st.opt t)
    (hcp : ¬ st.opt t + penalise_saving_row pa pb (sf t t) ≤
        listMax ((capaWindow minL maxL t).map
          (fun s => st.opt s + penalise_saving_row ca cb (sf s t)))) :
    (capaStep sf ca cb pa pb minL maxL t st).origin t = some t := by
  have hres1 := optimise_savings_val (capaWindow minL maxL t) st.opt
    (fun s => sf s t) ca cb
  have hpt := optimise_savings_point t st.opt (sf t t) pa pb
  simp only [capaStep]
  rw [hres1, hpt]
  rw [argmaxIdx_three_2 h1 hcp]
  simp [updateFn_same]

end CapaStepSpec

section CapaFinalSpec

variable (sf : ℕ → ℕ → List ℚ) (ca : ℚ) (cb : List ℚ) (pa : ℚ) (pb : List ℚ)
variable (minL maxL : ℕ)

theorem capaFinal_eq_loop_low (n t : ℕ) (h1 : 1 ≤ minL) (ht1 : minL - 1 ≤ t)
    (ht2 : t < n) {j : ℕ} (hj : j ≤ t) :
    (capaFinal sf ca cb pa pb minL maxL n).opt j =
      (capaLoop sf ca cb pa pb minL maxL (t - (minL - 1))).opt j := by
  unfold capaFinal
  have hsplit : n - (minL - 1) =
      (t - (minL - 1)) + ((n - (minL - 1)) - (t - (minL - 1))) := by omega
  rw [hsplit]
  exact capaLoop_opt_stable sf ca cb pa pb minL maxL _ _ (by omega)

theorem capaFinal_opt_succ_eq_step (n t : ℕ) (h1 : 1 ≤ minL)
    (ht1 : minL - 1 ≤ t) (ht2 : t < n) :
    (capaFinal sf ca cb pa pb minL maxL n).opt (t + 1) =
      (capaStep sf ca cb pa pb minL maxL t
        (capaLoop sf ca cb pa pb minL maxL (t - (minL - 1)))).opt (t + 1) := by
  unfold capaFinal
  have hsplit : n - (minL - 1) =
      (t - (minL - 1) + 1) + ((n - (minL - 1)) - (t - (minL - 1) + 1)) := by omega
  rw [hsplit]
  rw [capaLoop_opt_stable sf ca cb pa pb minL maxL _ _ (by omega)]
  rw [capaLoop]
  rw [show minL - 1 + (t - (minL - 1)) = t by omega]

theorem capaFinal_origin_eq_step (n t : ℕ) (h1 : 1 ≤ minL)
    (ht1 : minL - 1 ≤ t) (ht2 : t < n) :
    (capaFinal sf ca cb pa pb minL maxL n).origin t =
      (capaStep sf ca cb pa pb minL maxL t
        (capaLoop sf ca cb pa pb minL maxL (t - (minL - 1)))).origin t := by
  unfold capaFinal
  have hsplit : n - (minL - 1) =
      (t - (minL - 1) + 1) + ((n - (minL - 1)) - (t - (minL - 1) + 1)) := by omega
  rw [hsplit]
  rw [capaLoop_origin_stable sf ca cb pa pb minL maxL _ _ (by omega)]
  rw [capaLoop]
  rw [show minL - 1 + (t - (minL - 1)) = t by omega]

theorem capaFinal_recurrence (n t : ℕ) (h2 : 2 ≤ minL) (hlm : minL ≤ maxL)
    (ht1 : minL - 1 ≤ t) (ht2 : t < n) :
    (capaFinal sf ca cb pa pb minL maxL n).opt (t + 1) =
      max ((capaFinal sf ca cb pa pb minL maxL n).opt t)
        (max (listMax ((capaWindow minL maxL t).map (fun s =>
            (capaFinal sf ca cb pa pb minL maxL n).opt s +
              penalise_saving_row ca cb (sf s t))))
          ((capaFinal sf ca cb pa pb minL maxL n).opt t +
            penalise_saving_row pa pb (sf t t))) := by
  have hmapeq : (capaWindow minL maxL t).map (fun s =>
      (capaLoop sf ca cb pa pb minL maxL (t - (minL - 1))).opt s +
        penalise_saving_row ca cb (sf s t)) =
      (capaWindow minL maxL t).map (fun s =>
        (capaFinal sf ca cb pa pb minL maxL n).opt s +
          penalise_saving_row ca cb (sf s t)) := by
    apply List.map_congr_left
    intro s hs
    rw [capaWindow, List.mem_range'_1] at hs
    rw [capaFinal_eq_loop_low sf ca cb pa pb minL maxL n t (by omega) ht1 ht2
      (by omega)]
  rw [capaFinal_opt_succ_eq_step sf ca cb pa pb minL maxL n t (by omega) ht1 ht2]
  rw [capaStep_opt_val]
  rw [hmapeq]
  rw [← capaFinal_eq_loop_low sf ca cb pa pb minL maxL n t (by omega) ht1 ht2
    (le_refl t)]

theorem capaFinal_origin_case0 (n t : ℕ) (h2 : 2 ≤ minL) (hlm : minL ≤ maxL)
    (ht1 : minL - 1 ≤ t) (ht2 : t < n)
    (h : max (listMax ((capaWindow minL maxL t).map (fun s =>
          (capaFinal sf ca cb pa pb minL maxL n).opt s +
            penalise_saving_row ca cb (sf s t))))
        ((capaFinal sf ca cb pa pb minL maxL n).opt t +
          penalise_saving_row pa pb (sf t t)) ≤
        (capaFinal sf ca cb pa pb minL maxL n).opt t) :
    (capaFinal sf ca cb pa pb minL maxL n).origin t = none := by
  have hmapeq : (capaWindow minL maxL t).map (fun s =>
      (capaLoop sf ca cb pa pb minL maxL (t - (minL - 1))).opt s +
        penalise_saving_row ca cb (sf s t)) =
      (capaWindow minL maxL t).map (fun s =>
        (capaFinal sf ca cb pa pb minL maxL n).opt s +
          penalise_saving_row ca cb (sf s t)) := by
    apply List.map_congr_left
    intro s hs
    rw [capaWindow, List.mem_range'_1] at hs
    rw [capaFinal_eq_loop_low sf ca cb pa pb minL maxL n t (by omega) ht1 ht2
      (by omega)]
  rw [capaFinal_origin_eq_step sf ca cb pa pb minL maxL n t (by omega) ht1 ht2]
  rw [capaStep_origin_case0]
  · exact capaLoop_origin_none sf ca cb pa pb minL maxL _ (by omega)
  · rw [hmapeq]
    rw [← capaFinal_eq_loop_low sf ca cb pa pb minL maxL n t (by omega) ht1 ht2
      (le_refl t)]
    exact h

theorem capaFinal_origin_case1 (n t : ℕ) (h2 : 2 ≤ minL) (hlm : minL ≤ maxL)
    (ht1 : minL - 1 ≤ t) (ht2 : t < n)
    (h1 : ¬ max (listMax ((capaWindow minL maxL t).map (fun s =>
          (capaFinal sf ca cb pa pb minL maxL n).opt s +
            penalise_saving_row ca cb (sf s t))))
        ((capaFinal sf ca cb pa pb minL maxL n).opt t +
          penalise_saving_row pa pb (sf t t)) ≤
        (capaFinal sf ca cb pa pb minL maxL n).opt t)
    (hcp : (capaFinal sf ca cb pa pb minL maxL n).opt t +
        penalise_saving_row pa pb (sf t t) ≤
        listMax ((capaWindow minL maxL t).map (fun s =>
          (capaFinal sf ca cb pa pb minL maxL n).opt s +
            penalise_saving_row ca cb (sf s t)))) :
    ∃ s, (capaFinal sf ca cb pa pb minL maxL n).origin t = some s ∧
      s ∈ capaWindow minL maxL t ∧
      (capaFinal sf ca cb pa pb minL maxL n).opt s +
          penalise_saving_row ca cb (sf s t) =
        listMax ((capaWindow minL maxL t).map (fun s =>
          (capaFinal sf ca cb pa pb minL maxL n).opt s +
            penalise_saving_row ca cb (sf s t))) ∧
      ∀ q ∈ capaWindow minL maxL t, q < s →
        (capaFinal sf ca cb pa pb minL maxL n).opt q +
            penalise_saving_row ca cb (sf q t) <
          listMax ((capaWindow minL maxL t).map (fun s =>
            (capaFinal sf ca cb pa pb minL maxL n).opt s +
              penalise_saving_row ca cb (sf s t))) := by
  have hmapeq : (capaWindow minL maxL t).map (fun s =>
      (capaLoop sf ca cb pa pb minL maxL (t - (minL - 1))).opt s +
        penalise_saving_row ca cb (sf s t)) =
      (capaWindow minL maxL t).map (fun s =>
        (capaFinal sf ca cb pa pb minL maxL n).opt s +
          penalise_saving_row ca cb (sf s t)) := by
    apply List.map_congr_left
    intro s hs
    rw [capaWindow, List.mem_range'_1] at hs
    rw [capaFinal_eq_loop_low sf ca cb pa pb minL maxL n t (by omega) ht1 ht2
      (by omega)]
  have h1g : ¬ max (listMax ((capaWindow minL maxL t).map (fun s =>
        (capaLoop sf ca cb pa pb minL maxL (t - (minL - 1))).opt s +
          penalise_saving_row ca cb (sf s t))))
      ((capaLoop sf ca cb pa pb minL maxL (t - (minL - 1))).opt t +
        penalise_saving_row pa pb (sf t t)) ≤
      (capaLoop sf ca cb pa pb minL maxL (t - (minL - 1))).opt t := by
    rw [hmapeq,
      ← capaFinal_eq_loop_low sf ca cb pa pb minL maxL n t (by omega) ht1 ht2
        (le_refl t)]
    exact h1
  have hcpg : (capaLoop sf ca cb pa pb minL maxL (t - (minL - 1))).opt t +
      penalise_saving_row pa pb (sf t t) ≤
      listMax ((capaWindow minL maxL t).map (fun s =>
        (capaLoop sf ca cb pa pb minL maxL (t - (minL - 1))).opt s +
          penalise_saving_row ca cb (sf s t))) := by
    rw [hmapeq,
      ← capaFinal_eq_loop_low sf ca cb pa pb minL maxL n t (by omega) ht1 ht2
        (le_refl t)]
    exact hcp
  obtain ⟨s, hsome, hmem, hval, hleast⟩ := capaStep_origin_case1 sf ca cb pa pb
    minL maxL t (capaLoop sf ca cb pa pb minL maxL (t - (minL - 1))) h2 hlm ht1
    h1g hcpg
  refine ⟨s, ?_, hmem, ?_, ?_⟩
  · rw [capaFinal_origin_eq_step sf ca cb pa pb minL maxL n t (by omega) ht1 ht2]
    exact hsome
  · rw [capaWindow, List.mem_range'_1] at hmem
    rw [← hmapeq,
      capaFinal_eq_loop_low sf ca cb pa pb minL maxL n t (by omega) ht1 ht2
        (show s ≤ t by omega)]
    exact hval
  · intro q hq hlt
    have hq2 := hq
    rw [capaWindow, List.mem_range'_1] at hq2
    rw [← hmapeq,
      capaFinal_eq_loop_low sf ca cb pa pb minL maxL n t (by omega) ht1 ht2
        (show q ≤ t by omega)]
    exact hleast q hq hlt

theorem capaFinal_origin_case2 (n t : ℕ) (h2 : 2 ≤ minL) (hlm : minL ≤ maxL)
    (ht1 : minL - 1 ≤ t) (ht2 : t < n)
    (h1 : ¬ max (listMax ((capaWindow minL maxL t).map (fun s =>
          (capaFinal sf ca cb pa pb minL maxL n).opt s +
            penalise_saving_row ca cb (sf s t))))
        ((capaFinal sf ca cb pa pb minL maxL n).opt t +
          penalise_saving_row pa pb (sf t t)) ≤
        (capaFinal sf ca cb pa pb minL maxL n).opt t)
    (hcp : ¬ (capaFinal sf ca cb pa pb minL maxL n).opt t +
        penalise_saving_row pa pb (sf t t) ≤
        listMax ((capaWindow minL maxL t).map (fun s =>
          (capaFinal sf ca cb pa pb minL maxL n).opt s +
            penalise_saving_row ca cb (sf s t)))) :
    (capaFinal sf ca cb pa pb minL maxL n).origin t = some t := by
  have hmapeq : (capaWindow minL maxL t).map (fun s =>
      (capaLoop sf ca cb pa pb minL maxL (t - (minL - 1))).opt s +
        penalise_saving_row ca cb (sf s t)) =
      (capaWindow minL maxL t).map (fun s =>
        (capaFinal sf ca cb pa pb minL maxL n).opt s +
          penalise_saving_row ca cb (sf s t)) := by
    apply List.map_congr_left
    intro s hs
    rw [capaWindow, List.mem_range'_1] at hs
    rw [capaFinal_eq_loop_low sf ca cb pa pb minL maxL n t (by omega) ht1 ht2
      (by omega)]
  rw [capaFinal_origin_eq_step sf ca cb pa pb minL maxL n t (by omega) ht1 ht2]
  apply capaStep_origin_case2
  · rw [hmapeq,
      ← capaFinal_eq_loop_low sf ca cb pa pb minL maxL n t (by omega) ht1 ht2
        (le_refl t)]
    exact h1
  · rw [hmapeq,
      ← capaFinal_eq_loop_low sf ca cb pa pb minL maxL n t (by omega) ht1 ht2
        (le_refl t)]
    exact hcp

end CapaFinalSpec

section CapaOriginBound

variable (sf : ℕ → ℕ → List ℚ) (ca : ℚ) (cb : List ℚ) (pa : ℚ) (pb : List ℚ)
variable (minL maxL : ℕ)

/-- Every backtrack entry written by the DP is either the point record
`origin[t] = t` or a collective record drawn from the candidate window, so
that the recorded segment length `t - s + 1` lies in `[minL, maxL]`. -/
theorem capaLoop_origin_bound (m : ℕ) (h2 : 2 ≤ minL) (hlm : minL ≤ maxL)
    {j s : ℕ}
    (h : (capaLoop sf ca cb pa pb minL maxL m).origin j = some s) :
    s = j ∨ (s < j ∧ j + 1 ≤ s + maxL ∧ s + minL ≤ j + 1) := by
  induction m with
  | zero => simp [capaLoop, capaInit] at h
  | succ m ih =>
    rw [capaLoop] at h
    by_cases hj : j = minL - 1 + m
    · subst hj
      simp only [capaStep] at h
      rw [apply_ite (fun g : ℕ → Option ℕ => g (minL - 1 + m)),
        apply_ite (fun g : ℕ → Option ℕ => g (minL - 1 + m))] at h
      split at h
      · rw [updateFn_same] at h
        injection h with h
        have hcnt : 0 < (minL - 1 + m) + 2 - minL - ((minL - 1 + m) + 1 - maxL) := by
          omega
        obtain ⟨hmem, -, -⟩ := optimise_savings_snd_spec
          ((minL - 1 + m) + 1 - maxL)
          ((minL - 1 + m) + 2 - minL - ((minL - 1 + m) + 1 - maxL)) hcnt
          (capaLoop sf ca cb pa pb minL maxL m).opt
          (fun s => sf s (minL - 1 + m)) ca cb
        rw [List.mem_range'_1] at hmem
        rw [capaWindow] at h
        rw [h] at hmem
        right
        omega
      · split at h
        · rw [updateFn_same] at h
          injection h with h
          left
          omega
        · have := capaLoop_origin_none sf ca cb pa pb minL maxL m
            (le_refl (minL - 1 + m))
          rw [this] at h
          cases h
    · rw [capaStep_origin_ne sf ca cb pa pb minL maxL _ _ hj] at h
      exact ih h

/-- Every backtrack entry of the final DP state points at or before its own
index. -/
theorem capaFinal_origin_le (n : ℕ) (h2 : 2 ≤ minL) (hlm : minL ≤ maxL)
    {j s : ℕ}
    (h : (capaFinal sf ca cb pa pb minL maxL n).origin j = some s) : s ≤ j := by
  rcases capaLoop_origin_bound sf ca cb pa pb minL maxL _ h2 hlm h with h | h
  · omega
  · omega

end CapaOriginBound

theorem getAnomFuel_none {origin : ℕ → Option ℕ} {k fuel : ℕ}
    (h : origin k = none) :
    getAnomFuel origin (fuel + 1) (k + 1) = getAnomFuel origin fuel k := by
  rw [getAnomFuel, h]

theorem getAnomFuel_coll {origin : ℕ → Option ℕ} {k s fuel : ℕ}
    (h : origin k = some s) (hs : s < k) :
    getAnomFuel origin (fuel + 1) (k + 1) =
      ((s, k) :: (getAnomFuel origin fuel s).1,
        (getAnomFuel origin fuel s).2) := by
  rw [getAnomFuel, h]
  dsimp only
  rw [if_pos hs]

theorem getAnomFuel_point {origin : ℕ → Option ℕ} {k s fuel : ℕ}
    (h : origin k = some s) (hs : ¬ s < k) (he : s = k) :
    getAnomFuel origin (fuel + 1) (k + 1) =
      ((getAnomFuel origin fuel k).1, (k, k) :: (getAnomFuel origin fuel k).2) := by
  rw [getAnomFuel, h]
  dsimp only
  rw [if_neg hs, if_pos he]

theorem getAnomFuel_skip {origin : ℕ → Option ℕ} {k s fuel : ℕ}
    (h : origin k = some s) (hs : ¬ s < k) (he : ¬ s = k) :
    getAnomFuel origin (fuel + 1) (k + 1) = getAnomFuel origin fuel k := by
  rw [getAnomFuel, h]
  dsimp only
  rw [if_neg hs, if_neg he]

/-- The walk does not depend on the fuel, as long as it covers the cursor. -/
theorem getAnomFuel_congr (origin : ℕ → Option ℕ) :
    ∀ {f1 f2 k : ℕ}, k ≤ f1 → k ≤ f2 →
      getAnomFuel origin f1 k = getAnomFuel origin f2 k := by
  intro f1
  induction f1 with
  | zero =>
    intro f2 k h1 h2
    have hk : k = 0 := by omega
    subst hk
    cases f2 <;> rfl
  | succ f1 ih =>
    intro f2 k h1 h2
    cases k with
    | zero => cases f2 <;> rfl
    | succ k =>
      cases f2 with
      | zero => omega
      | succ f2 =>
        cases horg : origin k with
        | none =>
          rw [getAnomFuel_none horg, getAnomFuel_none horg]
          exact ih (by omega) (by omega)
        | some s =>
          by_cases hs : s < k
          · rw [getAnomFuel_coll horg hs, getAnomFuel_coll horg hs]
            rw [@ih f2 s (by omega) (by omega)]
          · by_cases he : s = k
            · rw [getAnomFuel_point horg hs he, getAnomFuel_point horg hs he]
              rw [@ih f2 k (by omega) (by omega)]
            · rw [getAnomFuel_skip horg hs he, getAnomFuel_skip horg hs he]
              exact ih (by omega) (by omega)

theorem getAnomAux_none {origin : ℕ → Option ℕ} {k : ℕ} (h : origin k = none) :
    getAnomAux origin (k + 1) = getAnomAux origin k := by
  unfold getAnomAux
  rw [getAnomFuel_none h]

theorem getAnomAux_coll {origin : ℕ → Option ℕ} {k s : ℕ}
    (h : origin k = some s) (hs : s < k) :
    getAnomAux origin (k + 1) =
      ((s, k) :: (getAnomAux origin s).1, (getAnomAux origin s).2) := by
  unfold getAnomAux
  rw [getAnomFuel_coll h hs, getAnomFuel_congr origin (by omega) (le_refl s)]

theorem getAnomAux_point {origin : ℕ → Option ℕ} {k s : ℕ}
    (h : origin k = some s) (hs : ¬ s < k) (he : s = k) :
    getAnomAux origin (k + 1) =
      ((getAnomAux origin k).1, (k, k) :: (getAnomAux origin k).2) := by
  unfold getAnomAux
  rw [getAnomFuel_point h hs he]

theorem getAnomAux_skip {origin : ℕ → Option ℕ} {k s : ℕ}
    (h : origin k = some s) (hs : ¬ s < k) (he : ¬ s = k) :
    getAnomAux origin (k + 1) = getAnomAux origin k := by
  unfold getAnomAux
  rw [getAnomFuel_skip h hs he]

/-- Invariant of the backward reconstruction walk on a backtrack array whose
entries never point past their own index: every emitted collective anomaly
`(s, i)` has `s < i` and is anchored by `origin i = s`; every emitted point
anomaly is `(i, i)` with `origin i = i`; both lists are strictly descending
and all emitted intervals are pairwise disjoint; and every flagged position
below the cursor is covered by an emitted interval. -/
theorem getAnomAux_spec (origin : ℕ → Option ℕ)
    (hle : ∀ i s, origin i = some s → s ≤ i) (k : ℕ) :
    (∀ x ∈ (getAnomAux origin k).1,
      origin x.2 = some x.1 ∧ x.1 < x.2 ∧ x.2 < k) ∧
    (∀ x ∈ (getAnomAux origin k).2,
      origin x.2 = some x.1 ∧ x.1 = x.2 ∧ x.2 < k) ∧
    List.Pairwise (fun a b => b.2 < a.1) (getAnomAux origin k).1 ∧
    List.Pairwise (fun a b => b.2 < a.2) (getAnomAux origin k).2 ∧
    (∀ a ∈ (getAnomAux origin k).1, ∀ b ∈ (getAnomAux origin k).2,
      b.2 < a.1 ∨ a.2 < b.2) ∧
    (∀ j, j < k → origin j ≠ none →
      (∃ a ∈ (getAnomAux origin k).1, a.1 ≤ j ∧ j ≤ a.2) ∨
      (∃ b ∈ (getAnomAux origin k).2, b.1 = j)) := by
  induction k using Nat.strong_induction_on with
  | _ k ih =>
    match k with
    | 0 => simp [getAnomAux, getAnomFuel]
    | k + 1 =>
      cases horg : origin k with
      | none =>
        obtain ⟨hc, hp, hpc, hpp, hcross, hcov⟩ := ih k (by omega)
        rw [getAnomAux_none horg]
        refine ⟨?_, ?_, hpc, hpp, hcross, ?_⟩
        · intro x hx
          have := hc x hx
          exact ⟨this.1, this.2.1, by omega⟩
        · intro x hx
          have := hp x hx
          exact ⟨this.1, this.2.1, by omega⟩
        · intro j hj hne
          rcases Nat.lt_or_ge j k with hlt | hge
          · exact hcov j hlt hne
          · have hjk : j = k := by omega
            subst hjk
            exact absurd horg hne
      | some s =>
        by_cases hs : s < k
        · obtain ⟨hc, hp, hpc, hpp, hcross, hcov⟩ := ih s (by omega)
          rw [getAnomAux_coll horg hs]
          refine ⟨?_, ?_, ?_, hpp, ?_, ?_⟩
          · intro x hx
            rcases List.mem_cons.mp hx with rfl | hx2
            · exact ⟨horg, hs, by omega⟩
            · have := hc x hx2
              exact ⟨this.1, this.2.1, by omega⟩
          · intro x hx
            have := hp x hx
            exact ⟨this.1, this.2.1, by omega⟩
          · refine List.pairwise_cons.mpr ⟨?_, hpc⟩
            intro b hb
            exact (hc b hb).2.2
          · intro a ha b hb
            rcases List.mem_cons.mp ha with rfl | ha2
            · exact Or.inl (hp b hb).2.2
            · exact hcross a ha2 b hb
          · intro j hj hne
            rcases Nat.lt_or_ge j s with hlt | hge
            · rcases hcov j hlt hne with ⟨a, ha, hcb⟩ | ⟨b, hb, hbe⟩
              · exact Or.inl ⟨a, List.mem_cons_of_mem _ ha, hcb⟩
              · exact Or.inr ⟨b, hb, hbe⟩
            · exact Or.inl ⟨(s, k), List.mem_cons_self _ _, by omega⟩
        · have heq : s = k := by
            have := hle k s horg
            omega
          subst heq
          obtain ⟨hc, hp, hpc, hpp, hcross, hcov⟩ := ih s (by omega)
          rw [getAnomAux_point horg hs rfl]
          refine ⟨?_, ?_, hpc, ?_, ?_, ?_⟩
          · intro x hx
            have := hc x hx
            exact ⟨this.1, this.2.1, by omega⟩
          · intro x hx
            rcases List.mem_cons.mp hx with rfl | hx2
            · exact ⟨horg, rfl, by omega⟩
            · have := hp x hx2
              exact ⟨this.1, this.2.1, by omega⟩
          · refine List.pairwise_cons.mpr ⟨?_, hpp⟩
            intro b hb
            exact (hp b hb).2.2
          · intro a ha b hb
            rcases List.mem_cons.mp hb with rfl | hb2
            · exact Or.inr (hc a ha).2.2
            · exact hcross a ha b hb2
          · intro j hj hne
            rcases Nat.lt_or_ge j s with hlt | hge
            · rcases hcov j hlt hne with ⟨a, ha, hcb⟩ | ⟨b, hb, hbe⟩
              · exact Or.inl ⟨a, ha, hcb⟩
              · exact Or.inr ⟨b, List.mem_cons_of_mem _ hb, hbe⟩
            · have hjk : j = s := by omega
              subst hjk
              exact Or.inr ⟨(j, j), List.mem_cons_self _ _, rfl⟩

section CapaMonotone

variable (sf : ℕ → ℕ → List ℚ) (ca : ℚ) (cb : List ℚ) (pa : ℚ) (pb : List ℚ)
variable (minL maxL : ℕ)

theorem capaFinal_opt_mono_step (n : ℕ) (h2 : 2 ≤ minL) (hlm : minL ≤ maxL)
    {j : ℕ} (hj : j < n) :
    (capaFinal sf ca cb pa pb minL maxL n).opt j ≤
      (capaFinal sf ca cb pa pb minL maxL n).opt (j + 1) := by
  rcases Nat.lt_or_ge j (minL - 1) with hlow | hhigh
  · unfold capaFinal
    rw [capaLoop_opt_zero sf ca cb pa pb minL maxL _ (by omega)
      (Or.inl (by omega))]
    rw [capaLoop_opt_zero sf ca cb pa pb minL maxL _ (by omega)
      (Or.inl (by omega))]
  · rw [capaFinal_recurrence sf ca cb pa pb minL maxL n j h2 hlm hhigh hj]
    exact le_max_left _ _

theorem capaFinal_opt_nonneg (n : ℕ) (h2 : 2 ≤ minL) (hlm : minL ≤ maxL)
    {j : ℕ} (hj : j ≤ n) :
    0 ≤ (capaFinal sf ca cb pa pb minL maxL n).opt j := by
  induction j with
  | zero =>
    unfold capaFinal
    rw [capaLoop_opt_zero sf ca cb pa pb minL maxL _ (by omega)
      (Or.inl (by omega))]
  | succ j ihj =>
    exact le_trans (ihj (by omega))
      (capaFinal_opt_mono_step sf ca cb pa pb minL maxL n h2 hlm (by omega))

end CapaMonotone

/-- Pointwise comparison of the DP tables of two runs whose penalties are the
same base penalties scaled by two positive factors. -/
theorem capaLoop_opt_scale_mono (sf : ℕ → ℕ → List ℚ) (ca : ℚ) (cb : List ℚ)
    (pa : ℚ) (pb : List ℚ) (minL maxL : ℕ)
    (hca : 0 ≤ ca) (hcb : ∀ b ∈ cb, 0 ≤ b) (hpa : 0 ≤ pa)
    (hpb : ∀ b ∈ pb, 0 ≤ b) (s1 s2 : ℚ) (h0 : 0 < s1) (h12 : s1 ≤ s2)
    (m : ℕ) (j : ℕ) :
    (capaLoop sf (s2 * ca) (cb.map (fun b => s2 * b)) (s2 * pa)
        (pb.map (fun b => s2 * b)) minL maxL m).opt j ≤
      (capaLoop sf (s1 * ca) (cb.map (fun b => s1 * b)) (s1 * pa)
        (pb.map (fun b => s1 * b)) minL maxL m).opt j := by
  induction m generalizing j with
  | zero => simp [capaLoop, capaInit]
  | succ m ih =>
    rw [capaLoop, capaLoop]
    by_cases hj : j = (minL - 1 + m) + 1
    · subst hj
      rw [capaStep_opt_val, capaStep_opt_val]
      apply max_le_max (ih _)
      apply max_le_max
      · apply listMax_map_mono
        intro s _
        exact add_le_add (ih s)
          (penalise_row_mono (sf s (minL - 1 + m)) ca cb s1 s2 hca hcb h0 h12)
      · exact add_le_add (ih _)
          (penalise_row_mono (sf (minL - 1 + m) (minL - 1 + m)) pa pb s1 s2
            hpa hpb h0 h12)
    · rw [capaStep_opt_ne _ _ _ _ _ _ _ _ _ hj, capaStep_opt_ne _ _ _ _ _ _ _ _ _ hj]
      exact ih j

/-- `dense_capa_penalty` from the source; `log` and `sqrt` are the external
`np.log` and `np.sqrt`, passed as oracles. -/
def dense_capa_penalty (log sqrt : ℚ → ℚ) (n p n_params : ℕ) (scale : ℚ) :
    ℚ × List ℚ :=
  let psi := log (n : ℚ)
  (scale * (((p * n_params : ℕ) : ℚ) + 2 * sqrt (((p * n_params : ℕ) : ℚ) * psi)
      + 2 * psi),
    List.replicate p 0)

/-- `sparse_capa_penalty` from the source. -/
def sparse_capa_penalty (log : ℚ → ℚ) (n p n_params : ℕ) (scale : ℚ) :
    ℚ × List ℚ :=
  let psi := log (n : ℚ)
  (2 * scale * psi,
    List.replicate p (2 * scale * log (((n_params * p : ℕ) : ℚ))))

/-- `intermediate_capa_penalty` from the source; `chi2_ppf`/`chi2_pdf` are
the external `scipy.stats.chi2.ppf/pdf`, passed as oracles. Raises (models as
`Except.error`) when `p < 2`. -/
def intermediate_capa_penalty (log sqrt : ℚ → ℚ)
    (chi2_ppf chi2_pdf : ℚ → ℚ → ℚ) (n p n_params : ℕ) (scale : ℚ) :
    Except String (ℚ × List ℚ) :=
  if p < 2 then Except.error "p must be at least 2."
  else
    let psi := log (n : ℚ)
    let penalty_func : ℕ → ℚ := fun j =>
      let c_j := chi2_ppf (1 - (j : ℚ) / (p : ℚ)) ((n_params : ℕ) : ℚ)
      let f_j := chi2_pdf c_j ((n_params : ℕ) : ℚ)
      scale * (2 * (psi + log (p : ℚ)) + (j : ℚ) * (n_params : ℚ)
        + 2 * (p : ℚ) * c_j * f_j
        + 2 * sqrt (((j : ℚ) * (n_params : ℚ) + 2 * (p : ℚ) * c_j * f_j)
            * (psi + log (p : ℚ))))
    let penalties := (List.range' 1 (p - 1)).map penalty_func
    Except.ok (0, diffAdj (0 :: (penalties ++ [penalties.getLastD 0])))

/-- `combined_capa_penalty` from the source: cumulative penalty curves of
dense, sparse and intermediate; pointwise minimum with a leading zero; its
adjacent differences are the returned betas with global alpha 0. For `p < 2`
it falls back to the dense penalty with `p` forced to 1. -/
def combined_capa_penalty (log sqrt : ℚ → ℚ)
    (chi2_ppf chi2_pdf : ℚ → ℚ → ℚ) (n p n_params : ℕ) (scale : ℚ) :
    Except String (ℚ × List ℚ) :=
  if p < 2 then Except.ok (dense_capa_penalty log sqrt n 1 n_params scale)
  else
    match intermediate_capa_penalty log sqrt chi2_ppf chi2_pdf n p n_params
      scale with
    | Except.error e => Except.error e
    | Except.ok ip =>
      let d := dense_capa_penalty log sqrt n p n_params scale
      let s := sparse_capa_penalty log n p n_params scale
      let dense_penalties := (cumsum d.2).map (fun v => d.1 + v)
      let sparse_penalties := (cumsum s.2).map (fun v => s.1 + v)
      let intermediate_penalties := (cumsum ip.2).map (fun v => ip.1 + v)
      let pointwise_min_penalties :=
        List.zipWith min dense_penalties
          (List.zipWith min sparse_penalties intermediate_penalties)
      Except.ok (0, diffAdj (0 :: pointwise_min_penalties))

inductive CapaPenaltyKind
  | dense
  | sparse
  | intermediate
  | combined

/-- String dispatch of `capa_penalty_factory` (a Callable argument is
returned unchanged by the source and never raises; the string dispatch and
its failure on unknown names are what is modelled). -/
def capa_penalty_factory (penalty : String) : Except String CapaPenaltyKind :=
  if penalty = "dense" then Except.ok CapaPenaltyKind.dense
  else if penalty = "sparse" then Except.ok CapaPenaltyKind.sparse
  else if penalty = "intermediate" then Except.ok CapaPenaltyKind.intermediate
  else if penalty = "combined" then Except.ok CapaPenaltyKind.combined
  else Except.error ("Unknown penalty: " ++ penalty)

/-- The parameters stored by `Mvcapa.__init__`. -/
structure MvcapaConfig where
  saving : String
  collective_penalty : String
  collective_penalty_scale : ℚ
  point_penalty : String
  point_penalty_scale : ℚ
  min_segment_length : ℕ
  max_segment_length : ℕ
  ignore_point_anomalies : Bool

/-- `Mvcapa.__init__`: stores all parameters and validates only the two
segment-length conditions; penalty names and scales are not examined here
(the penalty factory only runs inside `_fit`/`_get_penalty_components`,
after data is supplied). The `saving_factory` call of the source is an
external collaborator and is not modelled. -/
def mvcapa_init (saving collective_penalty : String)
    (collective_penalty_scale : ℚ) (point_penalty : String)
    (point_penalty_scale : ℚ) (min_segment_length max_segment_length : ℕ)
    (ignore_point_anomalies : Bool) : Except String MvcapaConfig :=
  if min_segment_length < 2 then
    Except.error "min_segment_length must be at least 2."
  else if max_segment_length < min_segment_length then
    Except.error "max_segment_length must be at least min_segment_length."
  else
    Except.ok
      { saving := saving
        collective_penalty := collective_penalty
        collective_penalty_scale := collective_penalty_scale
        point_penalty := point_penalty
        point_penalty_scale := point_penalty_scale
        min_segment_length := min_segment_length
        max_segment_length := max_segment_length
        ignore_point_anomalies := ignore_point_anomalies }

/-- True when the modelled computation raises. -/
def exceptFails {α : Type} : Except String α → Bool
  | Except.error _ => true
  | Except.ok _ => false

theorem intermediate_capa_penalty_ok (log sqrt : ℚ → ℚ)
    (chi2_ppf chi2_pdf : ℚ → ℚ → ℚ) (n p n_params : ℕ) (scale : ℚ)
    (hp : 2 ≤ p) :
    ∃ ib : List ℚ,
      intermediate_capa_penalty log sqrt chi2_ppf chi2_pdf n p n_params scale =
        Except.ok (0, ib) ∧ ib.length = p := by
  unfold intermediate_capa_penalty
  rw [if_neg (by omega)]
  refine ⟨_, rfl, ?_⟩
  rw [diffAdj_length]
  simp
  omega

theorem run_base_capa_opt_getD (sf : ℕ → ℕ → List ℚ) (ca : ℚ) (cb : List ℚ)
    (pa : ℚ) (pb : List ℚ) (minL maxL n : ℕ) {i : ℕ} (hi : i < n) :
    (run_base_capa sf ca cb pa pb minL maxL n).1.getD i 0 =
      (capaFinal sf ca cb pa pb minL maxL n).opt (i + 1) := by
  unfold run_base_capa capaFinal
  dsimp only
  rw [getD_map _ 0 (by simpa using hi)]
  rw [List.range_eq_range', getD_range' hi]
  rw [Nat.zero_add]

theorem run_base_capa_opt_length (sf : ℕ → ℕ → List ℚ) (ca : ℚ) (cb : List ℚ)
    (pa : ℚ) (pb : List ℚ) (minL maxL n : ℕ) :
    (run_base_capa sf ca cb pa pb minL maxL n).1.length = n := by
  unfold run_base_capa
  dsimp only
  rw [List.length_map, List.length_range]

theorem run_base_capa_collective (sf : ℕ → ℕ → List ℚ) (ca : ℚ) (cb : List ℚ)
    (pa : ℚ) (pb : List ℚ) (minL maxL n : ℕ) :
    (run_base_capa sf ca cb pa pb minL maxL n).2.1 =
      (getAnomAux (capaFinal sf ca cb pa pb minL maxL n).origin n).1 := rfl

theorem run_base_capa_point (sf : ℕ → ℕ → List ℚ) (ca : ℚ) (cb : List ℚ)
    (pa : ℚ) (pb : List ℚ) (minL maxL n : ℕ) :
    (run_base_capa sf ca cb pa pb minL maxL n).2.2 =
      (getAnomAux (capaFinal sf ca cb pa pb minL maxL n).origin n).2 := rfl

/-- Modelled from the spec, for comparison against the source in claim C2
(section 4.2 wording): sort the row in descending order; for each subset
size k = 1..p compute the cumulative sum of the k largest savings minus
`betas[k-1]`; take the maximum over k; then subtract alpha once
(here k = j + 1 for j ranging over 0..p-1). -/
def spec_penalise_row (alpha : ℚ) (betas : List ℚ) (row : List ℚ) : ℚ :=
  listMax ((List.range betas.length).map
    (fun j => ((sortDesc row).take (j + 1)).sum - betas.getD j 0)) - alpha

/-- Concrete saving function for the counterexamples: two components, four
time points; the interval (0,3) has savings [10, 10], the intervals (0,1)
and (2,3) have savings [9, 0], and every other interval (points included)
has savings [0, 0]. -/
def sfC8 (s t : ℕ) : List ℚ :=
  if s = 0 ∧ t = 3 then [10, 10]
  else if (s = 0 ∧ t = 1) ∨ (s = 2 ∧ t = 3) then [9, 0]
  else [0, 0]

/-- The engine run of the counterexamples: n = 4, min_segment_length = 2,
max_segment_length = 4, collective penalty (scale·1, [scale·0, scale·2]) and
point penalty (scale·100, [scale·0, scale·0]) — a custom penalty policy
linear in the scale, as `capa_penalty_factory` accepts for Callable
arguments. -/
def capaRunC8 (scale : ℚ) :
    List ℚ × List (ℕ × ℕ × List ℕ) × List (ℕ × ℕ × List ℕ) :=
  run_mvcapa sfC8 (scale * 1) [scale * 0, scale * 2] (scale * 100)
    [scale * 0, scale * 0] 2 4 4

/-- Total number of anomalies (collective plus point) detected by a run of
the engine. -/
def totalAnomalies
    (r : List ℚ × List (ℕ × ℕ × List ℕ) × List (ℕ × ℕ × List ℕ)) : ℕ :=
  r.2.1.length + r.2.2.length

/-- C3: evaluation of the code at the failing input. The spec says that when
all betas are below 1e-8 the penalized value of a row is the full-row sum
minus a single alpha (the value of the first, dead branch of the source);
the code instead returns the all-equal-betas branch, which subtracts alpha
once per component: on savings [[1, 1]], alpha 1, betas [0, 0] the code
yields 0 while the fast path the spec describes yields 1. -/
theorem C3_tiny_betas_code_eval :
    (([0, 0] : List ℚ).all (fun b => decide (b < 1 / 100000000)) = true) ∧
    penalise_savings [[1, 1]] 1 [0, 0] = [0] ∧
    penalise_savings_all_small_branch [[1, 1]] 1 = [1] ∧
    penalise_savings [[1, 1]] 1 [0, 0] ≠
      penalise_savings_all_small_branch [[1, 1]] 1 :=
  ⟨by decide, by decide, by decide, by decide⟩

/-- C2 counterexample: on the row [3, 2] with alpha 0 and ascending betas
[1, 2], the code (cumulative betas) yields 2 while the claimed formula
(single `betas[k-1]` per subset size) yields 3, so the claim as stated is
false. -/
theorem C2_counterexample :
    penalise_savings [[3, 2]] 0 [1, 2] = [2] ∧
    spec_penalise_row 0 [1, 2] [3, 2] = 3 ∧
    penalise_savings [[3, 2]] 0 [1, 2] ≠ [spec_penalise_row 0 [1, 2] [3, 2]] :=
  ⟨by decide, by decide, by decide⟩

/-- C2 (amended): for a row of p non-negative savings and ascending betas of
length p that are not all equal, the penalized-saving optimizer returns, per
row: sort the savings in descending order; for each subset size k = 1..p
(k = j + 1 below) compute the cumulative sum of the k largest savings minus
the cumulative sum of the first k betas; take the maximum over k; then
subtract alpha once. (When all betas are equal the source takes a different,
thresholding branch instead.) -/
theorem C2_penalised_saving_amended (row betas : List ℚ) (alpha : ℚ)
    (hlen : row.length = betas.length) (hpos : 0 < row.length)
    (hnn : ∀ x ∈ row, 0 ≤ x) (hasc : List.Sorted (· ≤ ·) betas)
    (hne : ¬ ∀ b ∈ betas, b = betas.headD 0) :
    penalise_savings [row] alpha betas =
      [listMax ((List.range betas.length).map
        (fun j => ((sortDesc row).take (j + 1)).sum -
          (betas.take (j + 1)).sum)) - alpha] := by
  have hne2 : ¬ (betas.all (fun b => b == betas.headD 0)) = true := by
    simpa [List.all_eq_true, beq_iff_eq] using hne
  rw [penalise_savings_eq_map]
  simp only [List.map_cons, List.map_nil]
  rw [penalise_row_else alpha betas row hne2
    (by intro hrow; rw [hrow] at hpos; simp at hpos)]
  rw [hlen, min_self]

/-- C2 witness: the amended claim at the concrete input row [5, 1],
alpha 1, betas [1, 3]. -/
theorem C2_witness :
    (([5, 1] : List ℚ).length = ([1, 3] : List ℚ).length ∧
      0 < ([5, 1] : List ℚ).length ∧ (∀ x ∈ ([5, 1] : List ℚ), 0 ≤ x) ∧
      List.Sorted (· ≤ ·) ([1, 3] : List ℚ) ∧
      ¬ ∀ b ∈ ([1, 3] : List ℚ), b = ([1, 3] : List ℚ).headD 0) ∧
    penalise_savings [[5, 1]] 1 [1, 3] =
      [listMax ((List.range ([1, 3] : List ℚ).length).map
        (fun j => ((sortDesc [5, 1]).take (j + 1)).sum -
          (([1, 3] : List ℚ).take (j + 1)).sum)) - 1] :=
  ⟨⟨by decide, by decide, by decide, by decide, by decide⟩,
    C2_penalised_saving_amended [5, 1] [1, 3] 1 (by decide) (by decide)
      (by decide) (by decide) (by decide)⟩

/-- C6 counterexample: constructing the estimator with an unknown collective
penalty name succeeds (no fatal error at construction time); the unknown
name is only rejected by the penalty factory, which runs at fit time. -/
theorem C6_counterexample :
    (∃ c, mvcapa_init "mean" "no_such_penalty" 1 "sparse" 1 2 1000 false =
      Except.ok c) ∧
    exceptFails (capa_penalty_factory "no_such_penalty") = true :=
  ⟨⟨_, rfl⟩, rfl⟩

/-- C6 (amended): only `min_segment_length < 2` and
`max_segment_length < min_segment_length` are rejected at construction time.
An unknown penalty policy name is rejected exactly when the penalty factory
runs (at fit time); `p < 2` is rejected by the intermediate policy when the
penalties are computed (also at fit time, since p comes from the data); a
non-positive penalty scale is never rejected (the combined builder in
particular succeeds for every scale). -/
theorem C6_validation_amended :
    (∀ (sv cp : String) (cs : ℚ) (pp : String) (ps : ℚ) (minL maxL : ℕ)
        (ig : Bool),
      exceptFails (mvcapa_init sv cp cs pp ps minL maxL ig) = true ↔
        (minL < 2 ∨ maxL < minL)) ∧
    (∀ name : String,
      exceptFails (capa_penalty_factory name) = true ↔
        (name ≠ "dense" ∧ name ≠ "sparse" ∧ name ≠ "intermediate" ∧
          name ≠ "combined")) ∧
    (∀ (log sqrt : ℚ → ℚ) (ppf pdf : ℚ → ℚ → ℚ) (n p n_params : ℕ)
        (scale : ℚ),
      (exceptFails
          (intermediate_capa_penalty log sqrt ppf pdf n p n_params scale) =
          true ↔ p < 2) ∧
      exceptFails (combined_capa_penalty log sqrt ppf pdf n p n_params scale) =
        false) := by
  refine ⟨?_, ?_, ?_⟩
  · intro sv cp cs pp ps minL maxL ig
    unfold mvcapa_init
    by_cases hc1 : minL < 2
    · simp [hc1, exceptFails]
    · by_cases hc2 : maxL < minL
      · simp [hc1, hc2, exceptFails]
      · simp [hc1, hc2, exceptFails]
  · intro name
    unfold capa_penalty_factory
    by_cases e1 : name = "dense"
    · simp [e1, exceptFails]
    · by_cases e2 : name = "sparse"
      · simp [e1, e2, exceptFails]
      · by_cases e3 : name = "intermediate"
        · simp [e1, e2, e3, exceptFails]
        · by_cases e4 : name = "combined"
          · simp [e1, e2, e3, e4, exceptFails]
          · simp [e1, e2, e3, e4, exceptFails]
  · intro log sqrt ppf pdf n p n_params scale
    constructor
    · unfold intermediate_capa_penalty
      by_cases hp : p < 2 <;> simp [hp, exceptFails]
    · unfold combined_capa_penalty
      by_cases hp : p < 2
      · simp [hp, exceptFails]
      · rw [if_neg hp]
        obtain ⟨ib, hib, -⟩ := intermediate_capa_penalty_ok log sqrt ppf pdf
          n p n_params scale (by omega)
        rw [hib]
        rfl

theorem dense_capa_penalty_snd (log sqrt : ℚ → ℚ) (n p n_params : ℕ)
    (scale : ℚ) :
    (dense_capa_penalty log sqrt n p n_params scale).2 = List.replicate p 0 :=
  rfl

theorem sparse_capa_penalty_snd (log : ℚ → ℚ) (n p n_params : ℕ) (scale : ℚ) :
    (sparse_capa_penalty log n p n_params scale).2 =
      List.replicate p (2 * scale * log (((n_params * p : ℕ) : ℚ))) := rfl

/-- C5: for p >= 2 the combined penalty has global alpha 0 and betas whose
cumulative sum at every component count k in 1..p equals the pointwise
minimum of the dense, sparse and intermediate cumulative penalties at k
(each being the alpha of that policy plus the sum of its first k betas; the
intermediate alpha is 0 in the source). -/
theorem C5_combined_penalty (log sqrt : ℚ → ℚ) (chi2_ppf chi2_pdf : ℚ → ℚ → ℚ)
    (n p n_params : ℕ) (scale : ℚ) (hn : 1 ≤ n) (hp : 2 ≤ p)
    (hnp : 1 ≤ n_params) (hs : 0 < scale) :
    ∃ betas ibetas : List ℚ,
      combined_capa_penalty log sqrt chi2_ppf chi2_pdf n p n_params scale =
        Except.ok (0, betas) ∧
      intermediate_capa_penalty log sqrt chi2_ppf chi2_pdf n p n_params scale =
        Except.ok (0, ibetas) ∧
      ∀ k, 1 ≤ k → k ≤ p →
        (cumsum betas).getD (k - 1) 0 =
          min ((dense_capa_penalty log sqrt n p n_params scale).1 +
              (cumsum (dense_capa_penalty log sqrt n p n_params scale).2).getD
                (k - 1) 0)
            (min ((sparse_capa_penalty log n p n_params scale).1 +
                (cumsum (sparse_capa_penalty log n p n_params scale).2).getD
                  (k - 1) 0)
              (0 + (cumsum ibetas).getD (k - 1) 0)) := by
  obtain ⟨ib, hib, hiblen⟩ := intermediate_capa_penalty_ok log sqrt chi2_ppf
    chi2_pdf n p n_params scale hp
  have hcomb : combined_capa_penalty log sqrt chi2_ppf chi2_pdf n p n_params
      scale = Except.ok (0, diffAdj (0 :: List.zipWith min
        ((cumsum (dense_capa_penalty log sqrt n p n_params scale).2).map
          (fun v => (dense_capa_penalty log sqrt n p n_params scale).1 + v))
        (List.zipWith min
          ((cumsum (sparse_capa_penalty log n p n_params scale).2).map
            (fun v => (sparse_capa_penalty log n p n_params scale).1 + v))
          ((cumsum ib).map (fun v => (0 : ℚ) + v))))) := by
    unfold combined_capa_penalty
    rw [if_neg (by omega), hib]
  refine ⟨_, ib, hcomb, hib, ?_⟩
  intro k hk1 hkp
  have hdlen : ((cumsum (dense_capa_penalty log sqrt n p n_params scale).2).map
      (fun v => (dense_capa_penalty log sqrt n p n_params scale).1 + v)).length
      = p := by
    rw [List.length_map, cumsum_length, dense_capa_penalty_snd,
      List.length_replicate]
  have hslen : ((cumsum (sparse_capa_penalty log n p n_params scale).2).map
      (fun v => (sparse_capa_penalty log n p n_params scale).1 + v)).length
      = p := by
    rw [List.length_map, cumsum_length, sparse_capa_penalty_snd,
      List.length_replicate]
  have hilen : ((cumsum ib).map (fun v => (0 : ℚ) + v)).length = p := by
    rw [List.length_map, cumsum_length, hiblen]
  have hk : k - 1 < p := by omega
  rw [cumsum_diffAdj]
  have hmap : (List.zipWith min
      ((cumsum (dense_capa_penalty log sqrt n p n_params scale).2).map
        (fun v => (dense_capa_penalty log sqrt n p n_params scale).1 + v))
      (List.zipWith min
        ((cumsum (sparse_capa_penalty log n p n_params scale).2).map
          (fun v => (sparse_capa_penalty log n p n_params scale).1 + v))
        ((cumsum ib).map (fun v => (0 : ℚ) + v)))).map (fun y => y - 0) =
      List.zipWith min
        ((cumsum (dense_capa_penalty log sqrt n p n_params scale).2).map
          (fun v => (dense_capa_penalty log sqrt n p n_params scale).1 + v))
        (List.zipWith min
          ((cumsum (sparse_capa_penalty log n p n_params scale).2).map
            (fun v => (sparse_capa_penalty log n p n_params scale).1 + v))
          ((cumsum ib).map (fun v => (0 : ℚ) + v))) := by
    simp
  rw [hmap]
  rw [getD_zipWith min (by omega) (by rw [List.length_zipWith]; omega)]
  rw [getD_zipWith min (by omega) (by omega)]
  rw [getD_map _ 0 (by rw [cumsum_length, dense_capa_penalty_snd,
    List.length_replicate]; omega)]
  rw [getD_map _ 0 (by rw [cumsum_length, sparse_capa_penalty_snd,
    List.length_replicate]; omega)]
  rw [getD_map _ 0 (by rw [cumsum_length, hiblen]; omega)]

/-- C5 witness: the combined penalty identity at n = 4, p = 2, one parameter
per segment, scale 1, with zero oracles for log, sqrt and the chi-squared
quantile and density. -/
theorem C5_witness :
    ((1 : ℕ) ≤ 4 ∧ (2 : ℕ) ≤ 2 ∧ (1 : ℕ) ≤ 1 ∧ (0 : ℚ) < 1) ∧
    (∃ betas ibetas : List ℚ,
      combined_capa_penalty (fun _ => 0) (fun _ => 0) (fun _ _ => 0)
          (fun _ _ => 0) 4 2 1 1 = Except.ok (0, betas) ∧
      intermediate_capa_penalty (fun _ => 0) (fun _ => 0) (fun _ _ => 0)
          (fun _ _ => 0) 4 2 1 1 = Except.ok (0, ibetas) ∧
      ∀ k, 1 ≤ k → k ≤ 2 →
        (cumsum betas).getD (k - 1) 0 =
          min ((dense_capa_penalty (fun _ => 0) (fun _ => 0) 4 2 1 1).1 +
              (cumsum (dense_capa_penalty (fun _ => 0) (fun _ => 0) 4 2 1
                1).2).getD (k - 1) 0)
            (min ((sparse_capa_penalty (fun _ => 0) 4 2 1 1).1 +
                (cumsum (sparse_capa_penalty (fun _ => 0) 4 2 1 1).2).getD
                  (k - 1) 0)
              (0 + (cumsum ibetas).getD (k - 1) 0))) :=
  ⟨⟨by decide, by decide, by decide, by decide⟩,
    C5_combined_penalty (fun _ => 0) (fun _ => 0) (fun _ _ => 0) (fun _ _ => 0)
      4 2 1 1 (by decide) (by decide) (by decide) (by decide)⟩

/-- C9: for every input length, saving function, penalties of any sign and
valid configuration, the per-prefix optimal-saving array returned by the DP
is non-negative and monotonically non-decreasing (each DP step takes a
maximum that includes the carried-forward previous optimum, and the entries
before the first processed time point stay at their zero initialisation). -/
theorem C9_opt_savings_monotone (sf : ℕ → ℕ → List ℚ) (ca : ℚ) (cb : List ℚ)
    (pa : ℚ) (pb : List ℚ) (minL maxL n : ℕ)
    (h2 : 2 ≤ minL) (hlm : minL ≤ maxL) :
    (0 ≤ (run_base_capa sf ca cb pa pb minL maxL n).1.getD 0 0) ∧
    (∀ i, i < n →
      0 ≤ (run_base_capa sf ca cb pa pb minL maxL n).1.getD i 0) ∧
    (∀ i, i + 1 < n →
      (run_base_capa sf ca cb pa pb minL maxL n).1.getD i 0 ≤
        (run_base_capa sf ca cb pa pb minL maxL n).1.getD (i + 1) 0) := by
  have hmain : ∀ i, i < n →
      0 ≤ (run_base_capa sf ca cb pa pb minL maxL n).1.getD i 0 := by
    intro i hi
    rw [run_base_capa_opt_getD sf ca cb pa pb minL maxL n hi]
    exact capaFinal_opt_nonneg sf ca cb pa pb minL maxL n h2 hlm (by omega)
  refine ⟨?_, hmain, ?_⟩
  · by_cases h0 : 0 < n
    · exact hmain 0 h0
    · rw [List.getD_eq_default _ _
        (by rw [run_base_capa_opt_length]; omega)]
  · intro i hi
    rw [run_base_capa_opt_getD sf ca cb pa pb minL maxL n (by omega),
      run_base_capa_opt_getD sf ca cb pa pb minL maxL n (by omega)]
    exact capaFinal_opt_mono_step sf ca cb pa pb minL maxL n h2 hlm (by omega)

/-- C9 witness: the monotone non-negative table at the concrete run with
saving function sfC8 and rational penalties. -/
theorem C9_witness :
    ((2 : ℕ) ≤ 2 ∧ (2 : ℕ) ≤ 4) ∧
    (0 ≤ (run_base_capa sfC8 1 [0, 2] 100 [0, 0] 2 4 4).1.getD 0 0) :=
  ⟨⟨by decide, by decide⟩,
    (C9_opt_savings_monotone sfC8 1 [0, 2] 100 [0, 0] 2 4 4 (by decide)
      (by decide)).1⟩

/-- C10: every collective anomaly returned by the engine has segment length
between min_segment_length and max_segment_length, because each recorded
collective start is drawn from the bounded candidate window and the
reconstructor emits exactly the recorded pairs. -/
theorem C10_collective_segment_length (sf : ℕ → ℕ → List ℚ) (ca : ℚ)
    (cb : List ℚ) (pa : ℚ) (pb : List ℚ) (minL maxL n : ℕ)
    (h2 : 2 ≤ minL) (hlm : minL ≤ maxL) :
    ∀ a ∈ (run_mvcapa sf ca cb pa pb minL maxL n).2.1,
      minL ≤ a.2.1 - a.1 + 1 ∧ a.2.1 - a.1 + 1 ≤ maxL := by
  intro a ha
  have hcoll : (run_mvcapa sf ca cb pa pb minL maxL n).2.1 =
      find_affected_components sf
        (run_base_capa sf ca cb pa pb minL maxL n).2.1 ca cb := rfl
  rw [hcoll] at ha
  unfold find_affected_components at ha
  rw [List.mem_map] at ha
  obtain ⟨b, hb, hab⟩ := ha
  rw [run_base_capa_collective] at hb
  have hle : ∀ i s,
      (capaFinal sf ca cb pa pb minL maxL n).origin i = some s → s ≤ i :=
    fun i s h => capaFinal_origin_le sf ca cb pa pb minL maxL n h2 hlm h
  obtain ⟨hc, -, -, -, -, -⟩ :=
    getAnomAux_spec (capaFinal sf ca cb pa pb minL maxL n).origin hle n
  obtain ⟨horg, hlt, -⟩ := hc b hb
  unfold capaFinal at horg
  rcases capaLoop_origin_bound sf ca cb pa pb minL maxL _ h2 hlm horg with
    he | hw
  · omega
  · rw [← hab]
    dsimp only
    refine ⟨by omega, by omega⟩

/-- C10 witness: the concrete run detects the collective anomaly (0, 3),
whose length 4 lies between min_segment_length 2 and max_segment_length 4. -/
theorem C10_witness :
    ((2 : ℕ) ≤ 2 ∧ (2 : ℕ) ≤ 4 ∧
      ((0, 3, [1, 0]) : ℕ × ℕ × List ℕ) ∈
        (run_mvcapa sfC8 1 [0, 2] 100 [0, 0] 2 4 4).2.1) ∧
    (2 ≤ (3 : ℕ) - 0 + 1 ∧ (3 : ℕ) - 0 + 1 ≤ 4) :=
  ⟨⟨by decide, by decide, by decide⟩,
    C10_collective_segment_length sfC8 1 [0, 2] 100 [0, 0] 2 4 4 (by decide)
      (by decide) (0, 3, [1, 0]) (by decide)⟩

/-- C4 counterexample: in the concrete DP run the only emitted anomaly is
the collective (0, 3), which covers position 2, yet the backtrack entry at
position 2 was never set. The emitted intervals therefore cover strictly
more than the set of flagged positions, refuting that they cover exactly
the positions flagged during the DP. -/
theorem C4_counterexample :
    (run_base_capa sfC8 1 [0, 2] 100 [0, 0] 2 4 4).2.1 = [(0, 3)] ∧
    (run_base_capa sfC8 1 [0, 2] 100 [0, 0] 2 4 4).2.2 = [] ∧
    (0 : ℕ) ≤ 2 ∧ (2 : ℕ) ≤ 3 ∧
    (capaFinal sfC8 1 [0, 2] 100 [0, 0] 2 4 4).origin 2 = none :=
  ⟨by decide, by decide, by decide, by decide, by decide⟩

/-- C4 (amended): on every DP-produced backtrack array the reconstructor
emits collective anomalies (s, i) with s < i and point anomalies (i, i),
each anchored at its flagged right endpoint (origin i = s, resp. i = i) and
lying within [0, n); all emitted intervals are pairwise disjoint, and
together they cover every position flagged during the DP (they may strictly
contain unflagged interior positions, so the cover is a superset of, not
exactly, the flagged set). -/
theorem C4_reconstruction_amended (sf : ℕ → ℕ → List ℚ) (ca : ℚ)
    (cb : List ℚ) (pa : ℚ) (pb : List ℚ) (minL maxL n : ℕ)
    (h2 : 2 ≤ minL) (hlm : minL ≤ maxL) :
    (∀ x ∈ (run_base_capa sf ca cb pa pb minL maxL n).2.1,
      (capaFinal sf ca cb pa pb minL maxL n).origin x.2 = some x.1 ∧
        x.1 < x.2 ∧ x.2 < n) ∧
    (∀ x ∈ (run_base_capa sf ca cb pa pb minL maxL n).2.2,
      (capaFinal sf ca cb pa pb minL maxL n).origin x.2 = some x.1 ∧
        x.1 = x.2 ∧ x.2 < n) ∧
    List.Pairwise (fun a b => b.2 < a.1)
      (run_base_capa sf ca cb pa pb minL maxL n).2.1 ∧
    List.Pairwise (fun a b => b.2 < a.2)
      (run_base_capa sf ca cb pa pb minL maxL n).2.2 ∧
    (∀ a ∈ (run_base_capa sf ca cb pa pb minL maxL n).2.1,
      ∀ b ∈ (run_base_capa sf ca cb pa pb minL maxL n).2.2,
        b.2 < a.1 ∨ a.2 < b.2) ∧
    (∀ j, j < n →
      (capaFinal sf ca cb pa pb minL maxL n).origin j ≠ none →
      (∃ a ∈ (run_base_capa sf ca cb pa pb minL maxL n).2.1,
        a.1 ≤ j ∧ j ≤ a.2) ∨
      (∃ b ∈ (run_base_capa sf ca cb pa pb minL maxL n).2.2, b.1 = j)) := by
  rw [run_base_capa_collective, run_base_capa_point]
  exact getAnomAux_spec _
    (fun i s h => capaFinal_origin_le sf ca cb pa pb minL maxL n h2 hlm h) n

/-- C4 witness: disjointness of the reconstructed anomalies on the concrete
run. -/
theorem C4_witness :
    ((2 : ℕ) ≤ 2 ∧ (2 : ℕ) ≤ 4) ∧
    List.Pairwise (fun a b => b.2 < a.1)
      (run_base_capa sfC8 1 [0, 2] 100 [0, 0] 2 4 4).2.1 :=
  ⟨⟨by decide, by decide⟩,
    (C4_reconstruction_amended sfC8 1 [0, 2] 100 [0, 0] 2 4 4 (by decide)
      (by decide)).2.2.1⟩

/-- C7 counterexample: the concrete run returns its collective anomalies as
[(2, 3, _), (0, 1, _)], which is not sorted ascending by position; the
backward walk appends right-to-left and the source performs no reversal. -/
theorem C7_counterexample :
    (capaRunC8 3).2.1.map (fun a => (a.1, a.2.1)) = [(2, 3), (0, 1)] ∧
    ¬ List.Pairwise (fun x y => x.1 ≤ y.1) (capaRunC8 3).2.1 :=
  ⟨by decide, by decide⟩

/-- C7 (amended): the final output of the engine consists of two ordered
sequences — the collective anomalies and the point anomalies — each sorted
in strictly descending order of position (every later entry ends strictly
before the earlier entry starts). -/
theorem C7_output_descending (sf : ℕ → ℕ → List ℚ) (ca : ℚ) (cb : List ℚ)
    (pa : ℚ) (pb : List ℚ) (minL maxL n : ℕ)
    (h2 : 2 ≤ minL) (hlm : minL ≤ maxL) :
    List.Pairwise (fun x y => y.2.1 < x.1)
      (run_mvcapa sf ca cb pa pb minL maxL n).2.1 ∧
    List.Pairwise (fun x y => y.2.1 < x.2.1)
      (run_mvcapa sf ca cb pa pb minL maxL n).2.2 := by
  obtain ⟨-, -, hpc, hpp, -, -⟩ := getAnomAux_spec
    (capaFinal sf ca cb pa pb minL maxL n).origin
    (fun i s h => capaFinal_origin_le sf ca cb pa pb minL maxL n h2 hlm h) n
  constructor
  · rw [show (run_mvcapa sf ca cb pa pb minL maxL n).2.1 =
        find_affected_components sf
          (run_base_capa sf ca cb pa pb minL maxL n).2.1 ca cb from rfl]
    rw [run_base_capa_collective]
    unfold find_affected_components
    refine List.Pairwise.map _ ?_ hpc
    intro a b hr
    dsimp only
    exact hr
  · rw [show (run_mvcapa sf ca cb pa pb minL maxL n).2.2 =
        find_affected_components sf
          (run_base_capa sf ca cb pa pb minL maxL n).2.2 pa pb from rfl]
    rw [run_base_capa_point]
    unfold find_affected_components
    refine List.Pairwise.map _ ?_ hpp
    intro a b hr
    dsimp only
    exact hr

/-- C7 witness: the amended descending-order property on the concrete run
with two collective anomalies. -/
theorem C7_witness :
    ((2 : ℕ) ≤ 2 ∧ (2 : ℕ) ≤ 4) ∧
    List.Pairwise (fun x y => y.2.1 < x.1) (capaRunC8 3).2.1 :=
  ⟨⟨by decide, by decide⟩,
    (C7_output_descending sfC8 (3 * 1) [3 * 0, 3 * 2] (3 * 100) [3 * 0, 3 * 0]
      2 4 4 (by decide) (by decide)).1⟩

/-- C8 counterexample: with the saving function sfC8 and a custom penalty
policy linear in the scale (collective (scale, [0, 2·scale]), point
(100·scale, [0, 0])), the engine detects 1 anomaly at scale 1 but 2
anomalies at scale 3 > 1 > 0: at the small scale one wide two-component
anomaly is optimal, at the larger scale two narrow one-component anomalies
are, so the anomaly count is not monotonically suppressed. -/
theorem C8_counterexample :
    (0 : ℚ) < 1 ∧ (1 : ℚ) < 3 ∧
    totalAnomalies (capaRunC8 1) = 1 ∧ totalAnomalies (capaRunC8 3) = 2 ∧
    ¬ totalAnomalies (capaRunC8 3) ≤ totalAnomalies (capaRunC8 1) :=
  ⟨by decide, by decide, by decide, by decide, by decide⟩

/-- C8 (amended): for every fixed input, saving function and valid
configuration, and non-negative base penalties scaled by factors
s2 >= s1 > 0 applied to both the collective and point penalties, every
entry of the per-prefix optimal-saving array under s2 is at most the
corresponding entry under s1 (monotone suppression holds for the optimal
penalized saving; the anomaly count itself is not monotone). -/
theorem C8_optimal_saving_scale_mono (sf : ℕ → ℕ → List ℚ) (ca : ℚ)
    (cb : List ℚ) (pa : ℚ) (pb : List ℚ) (minL maxL n : ℕ)
    (hca : 0 ≤ ca) (hcb : ∀ b ∈ cb, 0 ≤ b) (hpa : 0 ≤ pa)
    (hpb : ∀ b ∈ pb, 0 ≤ b) (s1 s2 : ℚ) (h0 : 0 < s1) (h12 : s1 ≤ s2)
    (i : ℕ) :
    (run_base_capa sf (s2 * ca) (cb.map (fun b => s2 * b)) (s2 * pa)
        (pb.map (fun b => s2 * b)) minL maxL n).1.getD i 0 ≤
      (run_base_capa sf (s1 * ca) (cb.map (fun b => s1 * b)) (s1 * pa)
        (pb.map (fun b => s1 * b)) minL maxL n).1.getD i 0 := by
  by_cases hi : i < n
  · rw [run_base_capa_opt_getD _ _ _ _ _ _ _ _ hi,
      run_base_capa_opt_getD _ _ _ _ _ _ _ _ hi]
    unfold capaFinal
    exact capaLoop_opt_scale_mono sf ca cb pa pb minL maxL hca hcb hpa hpb
      s1 s2 h0 h12 _ _
  · rw [List.getD_eq_default _ _ (by rw [run_base_capa_opt_length]; omega),
      List.getD_eq_default _ _ (by rw [run_base_capa_opt_length]; omega)]

/-- C8 witness: the amended scale-monotonicity at the concrete run, scales
1 and 3, table entry 3. -/
theorem C8_witness :
    ((0 : ℚ) ≤ 1 ∧ (∀ b ∈ ([0, 2] : List ℚ), 0 ≤ b) ∧ (0 : ℚ) ≤ 100 ∧
      (∀ b ∈ ([0, 0] : List ℚ), 0 ≤ b) ∧ (0 : ℚ) < 1 ∧ (1 : ℚ) ≤ 3) ∧
    (run_base_capa sfC8 (3 * 1) (([0, 2] : List ℚ).map (fun b => 3 * b))
        (3 * 100) (([0, 0] : List ℚ).map (fun b => 3 * b)) 2 4 4).1.getD 3 0 ≤
      (run_base_capa sfC8 (1 * 1) (([0, 2] : List ℚ).map (fun b => 1 * b))
        (1 * 100) (([0, 0] : List ℚ).map (fun b => 1 * b)) 2 4 4).1.getD 3 0 :=
  ⟨⟨by decide, by decide, by decide, by decide, by decide, by decide⟩,
    C8_optimal_saving_scale_mono sfC8 1 [0, 2] 100 [0, 0] 2 4 4 (by decide)
      (by decide) (by decide) (by decide) 1 3 (by decide) (by decide) 3⟩

/-- C1: at each processed time t (minL - 1 <= t <= n - 1) under a valid
configuration (2 <= minL <= maxL), the DP sets opt_saving[t+1] to the
maximum of the three hypothesis values: the carried-forward opt_saving[t];
the best collective anomaly ending at t, maximizing
opt_saving[s] + penalizedSaving(s, t) over the candidate window
[max(0, t - maxL + 1), t - minL + 2); and the point hypothesis
opt_saving[t] + penalizedPointSaving(t). On ties the earliest-listed
hypothesis wins: the backtrack entry is left unset whenever the no-anomaly
value is at least both others; when the collective hypothesis strictly
beats no-anomaly and weakly beats the point hypothesis, the entry records
the earliest maximizing start s*; when the point hypothesis strictly beats
both, the entry records t. The array returned by run_base_capa is
opt_saving[1:], so its entry t equals opt_saving[t+1]. -/
theorem C1_dp_recurrence (sf : ℕ → ℕ → List ℚ) (ca : ℚ) (cb : List ℚ)
    (pa : ℚ) (pb : List ℚ) (minL maxL n t : ℕ)
    (h2 : 2 ≤ minL) (hlm : minL ≤ maxL) (ht1 : minL - 1 ≤ t) (ht2 : t < n) :
    (capaFinal sf ca cb pa pb minL maxL n).opt (t + 1) =
      max ((capaFinal sf ca cb pa pb minL maxL n).opt t)
        (max (listMax ((capaWindow minL maxL t).map (fun s =>
            (capaFinal sf ca cb pa pb minL maxL n).opt s +
              penalise_saving_row ca cb (sf s t))))
          ((capaFinal sf ca cb pa pb minL maxL n).opt t +
            penalise_saving_row pa pb (sf t t))) ∧
    (run_base_capa sf ca cb pa pb minL maxL n).1.getD t 0 =
      (capaFinal sf ca cb pa pb minL maxL n).opt (t + 1) ∧
    (listMax ((capaWindow minL maxL t).map (fun s =>
        (capaFinal sf ca cb pa pb minL maxL n).opt s +
          penalise_saving_row ca cb (sf s t))) ≤
        (capaFinal sf ca cb pa pb minL maxL n).opt t →
      (capaFinal sf ca cb pa pb minL maxL n).opt t +
          penalise_saving_row pa pb (sf t t) ≤
        (capaFinal sf ca cb pa pb minL maxL n).opt t →
      (capaFinal sf ca cb pa pb minL maxL n).origin t = none) ∧
    ((capaFinal sf ca cb pa pb minL maxL n).opt t <
        listMax ((capaWindow minL maxL t).map (fun s =>
          (capaFinal sf ca cb pa pb minL maxL n).opt s +
            penalise_saving_row ca cb (sf s t))) →
      (capaFinal sf ca cb pa pb minL maxL n).opt t +
          penalise_saving_row pa pb (sf t t) ≤
        listMax ((capaWindow minL maxL t).map (fun s =>
          (capaFinal sf ca cb pa pb minL maxL n).opt s +
            penalise_saving_row ca cb (sf s t))) →
      ∃ s, (capaFinal sf ca cb pa pb minL maxL n).origin t = some s ∧
        s ∈ capaWindow minL maxL t ∧
        (capaFinal sf ca cb pa pb minL maxL n).opt s +
            penalise_saving_row ca cb (sf s t) =
          listMax ((capaWindow minL maxL t).map (fun s =>
            (capaFinal sf ca cb pa pb minL maxL n).opt s +
              penalise_saving_row ca cb (sf s t))) ∧
        ∀ q ∈ capaWindow minL maxL t, q < s →
          (capaFinal sf ca cb pa pb minL maxL n).opt q +
              penalise_saving_row ca cb (sf q t) <
            listMax ((capaWindow minL maxL t).map (fun s =>
              (capaFinal sf ca cb pa pb minL maxL n).opt s +
                penalise_saving_row ca cb (sf s t)))) ∧
    ((capaFinal sf ca cb pa pb minL maxL n).opt t <
        (capaFinal sf ca cb pa pb minL maxL n).opt t +
          penalise_saving_row pa pb (sf t t) →
      listMax ((capaWindow minL maxL t).map (fun s =>
        (capaFinal sf ca cb pa pb minL maxL n).opt s +
          penalise_saving_row ca cb (sf s t))) <
        (capaFinal sf ca cb pa pb minL maxL n).opt t +
          penalise_saving_row pa pb (sf t t) →
      (capaFinal sf ca cb pa pb minL maxL n).origin t = some t) := by
  refine ⟨capaFinal_recurrence sf ca cb pa pb minL maxL n t h2 hlm ht1 ht2,
    run_base_capa_opt_getD sf ca cb pa pb minL maxL n ht2, ?_, ?_, ?_⟩
  · intro hA hB
    exact capaFinal_origin_case0 sf ca cb pa pb minL maxL n t h2 hlm ht1 ht2
      (max_le hA hB)
  · intro hA hB
    exact capaFinal_origin_case1 sf ca cb pa pb minL maxL n t h2 hlm ht1 ht2
      (not_le.mpr (lt_of_lt_of_le hA (le_max_left _ _))) hB
  · intro hA hB
    exact capaFinal_origin_case2 sf ca cb pa pb minL maxL n t h2 hlm ht1 ht2
      (not_le.mpr (lt_of_lt_of_le hA (le_max_right _ _))) (not_le.mpr hB)

/-- C1 witness: the recurrence at the concrete run, time t = 3. -/
theorem C1_witness :
    ((2 : ℕ) ≤ 2 ∧ (2 : ℕ) ≤ 4 ∧ (2 : ℕ) - 1 ≤ 3 ∧ (3 : ℕ) < 4) ∧
    (capaFinal sfC8 1 [0, 2] 100 [0, 0] 2 4 4).opt (3 + 1) =
      max ((capaFinal sfC8 1 [0, 2] 100 [0, 0] 2 4 4).opt 3)
        (max (listMax ((capaWindow 2 4 3).map (fun s =>
            (capaFinal sfC8 1 [0, 2] 100 [0, 0] 2 4 4).opt s +
              penalise_saving_row 1 [0, 2] (sfC8 s 3))))
          ((capaFinal sfC8 1 [0, 2] 100 [0, 0] 2 4 4).opt 3 +
            penalise_saving_row 100 [0, 0] (sfC8 3 3))) :=
  ⟨⟨by decide, by decide, by decide, by decide⟩,
    (C1_dp_recurrence sfC8 1 [0, 2] 100 [0, 0] 2 4 4 3 (by decide) (by decide)
      (by decide) (by decide)).1⟩
